import Mathlib

/-!
Verification of the acstore attribute container store against its
natural-language specification.

The Python sources are shallowly embedded: Python strings become `String`
(or `List Char` where character-level reasoning is needed), Python lists
become `List`, Python dicts become association lists looked up by first
match, Python exceptions become `Except` results, and the mutable
`SQLiteAttributeContainerStore` object becomes an explicit `EngineState`
threaded through the operations.  Machine integers are `Int`/`Nat`
(Python integers are unbounded, so no modular arithmetic is needed).
-/

namespace ACStore

/-! ## Decimal printing and parsing of integers

Python renders integers with `f-string` decimal formatting and parses them
with `int(s, 10)`.  Both are modelled at the character level.  The printer
uses an explicit fuel argument so that it is structurally recursive (the
fuel is always sufficient, see `natToCharsAux_irrel`). -/

/-- The decimal digit character for `n < 10`, i.e. `Char.ofNat (48 + n)`. -/
def digitChar10 (n : Nat) : Char := Char.ofNat (48 + n)

/-- Decimal rendering of a natural number, most significant digit first;
`fuel` bounds the recursion depth. -/
def natToCharsAux : Nat → Nat → List Char
  | 0, _ => []
  | fuel + 1, n =>
    if n < 10 then [digitChar10 n]
    else natToCharsAux fuel (n / 10) ++ [digitChar10 (n % 10)]

/-- Decimal rendering of a natural number, e.g. `natToChars 105 = ['1','0','5']`. -/
def natToChars (n : Nat) : List Char := natToCharsAux (n + 1) n

/-- Decimal rendering of an integer, with a leading minus sign when negative;
mirrors Python decimal formatting of an `int`. -/
def intToChars (i : Int) : List Char :=
  if i < 0 then '-' :: natToChars (-i).toNat else natToChars i.toNat

/-- The value of a decimal digit character, `none` for a non-digit. -/
def digitVal10 (c : Char) : Option Nat :=
  if 48 ≤ c.toNat ∧ c.toNat ≤ 57 then some (c.toNat - 48) else none

/-- Parses a run of decimal digits left to right, accumulating the value;
fails on the first non-digit. -/
def parseDigits : List Char → Nat → Option Nat
  | [], acc => some acc
  | c :: rest, acc =>
    match digitVal10 c with
    | some d => parseDigits rest (10 * acc + d)
    | none => none

/-- Parses a non-empty all-digit string into a natural number. -/
def parseNatChars (cs : List Char) : Option Nat :=
  match cs with
  | [] => none
  | _ :: _ => parseDigits cs 0

/-- Parses an optionally signed decimal integer, mirroring Python
`int(s, 10)` on its canonical inputs (no surrounding whitespace and no
underscore digit grouping, which the repository never produces). -/
def parseIntChars (cs : List Char) : Option Int :=
  match cs with
  | [] => none
  | c :: rest =>
    if c = '-' then (parseNatChars rest).map (fun n => -(n : Int))
    else if c = '+' then (parseNatChars rest).map (fun n => (n : Int))
    else (parseNatChars cs).map (fun n => (n : Int))

/-- The printer ignores its fuel as long as the fuel exceeds the number. -/
theorem natToCharsAux_irrel (f₁ : Nat) :
    ∀ f₂ n, n < f₁ → n < f₂ → natToCharsAux f₁ n = natToCharsAux f₂ n := by
  induction f₁ with
  | zero => intro f₂ n h₁ _; omega
  | succ g ih =>
    intro f₂ n h₁ h₂
    match f₂, h₂ with
    | h + 1, _ =>
      simp only [natToCharsAux]
      by_cases hn : n < 10
      · simp [hn]
      · simp only [hn, if_false]
        have hdiv : n / 10 < n := by omega
        rw [ih h (n / 10) (by omega) (by omega)]

/-- Unfolding equation for `natToChars`. -/
theorem natToChars_eq (n : Nat) :
    natToChars n =
      if n < 10 then [digitChar10 n]
      else natToChars (n / 10) ++ [digitChar10 (n % 10)] := by
  show natToCharsAux (n + 1) n = _
  simp only [natToCharsAux]
  by_cases hn : n < 10
  · simp [hn]
  · simp only [hn, if_false]
    rw [natToCharsAux_irrel n (n / 10 + 1) (n / 10) (by omega) (by omega)]
    rfl

/-- Every character the printer emits is a decimal digit character. -/
theorem natToChars_digits (n : Nat) :
    ∀ c ∈ natToChars n, ∃ d, d < 10 ∧ c = digitChar10 d := by
  induction n using Nat.strong_induction_on with
  | _ n ih =>
    rw [natToChars_eq]
    by_cases hn : n < 10
    · simp only [hn, if_true, List.mem_singleton]
      intro c hc
      exact ⟨n, hn, hc⟩
    · simp only [hn, if_false, List.mem_append, List.mem_singleton]
      intro c hc
      rcases hc with hc | hc
      · exact ih (n / 10) (by omega) c hc
      · exact ⟨n % 10, by omega, hc⟩

/-- The decimal rendering of a natural number is never empty. -/
theorem natToChars_ne_nil (n : Nat) : natToChars n ≠ [] := by
  rw [natToChars_eq]
  by_cases hn : n < 10 <;> simp [hn]

/-- `digitVal10` recovers the digit the printer emitted. -/
theorem digitVal10_digitChar10 (d : Nat) (h : d < 10) :
    digitVal10 (digitChar10 d) = some d := by
  interval_cases d <;> rfl

/-- Parsing after printing recovers the value, for any accumulator. -/
theorem parseDigits_natToChars (n : Nat) :
    ∀ acc, parseDigits (natToChars n) acc =
      some (acc * 10 ^ (natToChars n).length + n) := by
  induction n using Nat.strong_induction_on with
  | _ n ih =>
    intro acc
    rw [natToChars_eq]
    by_cases hn : n < 10
    · simp only [hn, if_true, parseDigits, digitVal10_digitChar10 n hn]
      simp [Nat.mul_comm]
    · simp only [hn, if_false]
      have happ : ∀ (xs ys : List Char) (a : Nat),
          parseDigits (xs ++ ys) a =
            match parseDigits xs a with
            | some b => parseDigits ys b
            | none => none := by
        intro xs
        induction xs with
        | nil => intro ys a; rfl
        | cons x xt ihx =>
          intro ys a
          simp only [List.cons_append, parseDigits]
          cases digitVal10 x with
          | some d => exact ihx ys (10 * a + d)
          | none => rfl
      rw [happ, ih (n / 10) (by omega) acc]
      simp only [parseDigits, digitVal10_digitChar10 (n % 10) (by omega)]
      simp only [List.length_append, List.length_singleton]
      congr 1
      have h10 : 10 * (n / 10) + n % 10 = n := by omega
      ring_nf
      omega

/-- `parseNatChars` is a left inverse of `natToChars`. -/
theorem parseNatChars_natToChars (n : Nat) :
    parseNatChars (natToChars n) = some n := by
  have hne := natToChars_ne_nil n
  match hcs : natToChars n with
  | [] => exact absurd hcs hne
  | c :: rest =>
    show parseDigits (c :: rest) 0 = some n
    rw [← hcs, parseDigits_natToChars n 0]
    simp

/-- The first character the printer emits is a digit, hence not a sign. -/
theorem natToChars_head_digit (n : Nat) :
    ∃ d rest, d < 10 ∧ natToChars n = digitChar10 d :: rest := by
  induction n using Nat.strong_induction_on with
  | _ n ih =>
    rw [natToChars_eq]
    by_cases hn : n < 10
    · exact ⟨n, [], hn, by simp [hn]⟩
    · obtain ⟨d, rest, hd, hrec⟩ := ih (n / 10) (by omega)
      exact ⟨d, rest ++ [digitChar10 (n % 10)], hd, by simp [hn, hrec]⟩

/-- `parseIntChars` is a left inverse of `intToChars`. -/
theorem parseIntChars_intToChars (i : Int) :
    parseIntChars (intToChars i) = some i := by
  unfold intToChars
  by_cases hi : i < 0
  · simp only [hi, if_true, parseIntChars]
    rw [parseNatChars_natToChars]
    show some (-(((-i).toNat : Nat) : Int)) = some i
    congr 1
    omega
  · simp only [hi, if_false]
    obtain ⟨d, rest, hd, hrec⟩ := natToChars_head_digit i.toNat
    rw [hrec]
    have hdn : ¬ digitChar10 d = '-' := by
      intro h
      have := congrArg Char.toNat h
      unfold digitChar10 at this
      interval_cases d <;> simp_all
    have hdp : ¬ digitChar10 d = '+' := by
      intro h
      have := congrArg Char.toNat h
      unfold digitChar10 at this
      interval_cases d <;> simp_all
    simp only [parseIntChars, hdn, hdp, if_false]
    rw [← hrec, parseNatChars_natToChars]
    show some ((i.toNat : Nat) : Int) = some i
    congr 1
    omega

/-! ## Splitting on a separator character

Models Python `str.split` with a one-character separator. -/

/-- Splits on a separator character; `splitOnChar '.' "a.b" = ["a", "b"]`
and the empty string splits to `[""]`, as in Python. -/
def splitOnChar (sep : Char) : List Char → List (List Char)
  | [] => [[]]
  | c :: rest =>
    if c = sep then [] :: splitOnChar sep rest
    else
      match splitOnChar sep rest with
      | [] => [[c]]
      | p :: ps => (c :: p) :: ps

/-- A string without the separator splits to itself alone. -/
theorem splitOnChar_no_sep (sep : Char) :
    ∀ cs : List Char, sep ∉ cs → splitOnChar sep cs = [cs] := by
  intro cs
  induction cs with
  | nil => intro _; rfl
  | cons c rest ih =>
    intro h
    have hc : ¬ c = sep := by
      intro hcs; exact h (by simp [hcs])
    have hrest : sep ∉ rest := by
      intro hm; exact h (by simp [hm])
    simp only [splitOnChar, hc, if_false, ih hrest]

/-- Splitting at the first separator occurrence peels off the prefix. -/
theorem splitOnChar_append (sep : Char) :
    ∀ a b : List Char, sep ∉ a →
      splitOnChar sep (a ++ sep :: b) = a :: splitOnChar sep b := by
  intro a
  induction a with
  | nil => intro b _; simp [splitOnChar]
  | cons c rest ih =>
    intro b h
    have hc : ¬ c = sep := by
      intro hcs; exact h (by simp [hcs])
    have hrest : sep ∉ rest := by
      intro hm; exact h (by simp [hm])
    simp only [List.cons_append, splitOnChar, hc, if_false, List.append_eq,
      ih b hrest]

/-! ## Attribute container identifiers

From `src/acstore/containers/interface.py`, class
`AttributeContainerIdentifier`.  The identifier string is modelled as a
`List Char`. -/

/-- An attribute container identifier: a table name and a 1-based sequence
number, either of which may be unset. -/
structure AttributeContainerIdentifier where
  name : Option (List Char)
  sequence_number : Option Int
deriving DecidableEq

/-- The `ValueError` Python raises when `split('.')` does not yield exactly
two parts or when `int(s, 10)` cannot parse the sequence number; the
specification calls this failure `MalformedIdentifier`. -/
inductive IdentifierError
  | malformed
deriving DecidableEq

/-- `AttributeContainerIdentifier.CopyToString`: the canonical form
`name ++ "." ++ sequence_number`, or `none` when either field is unset. -/
def CopyToString (ident : AttributeContainerIdentifier) : Option (List Char) :=
  match ident.name, ident.sequence_number with
  | some n, some s => some (n ++ '.' :: intToChars s)
  | _, _ => none

/-- `AttributeContainerIdentifier.CopyFromString`: splits on `'.'`, requires
exactly two parts, and parses the second as a base-10 integer. -/
def CopyFromString (cs : List Char) :
    Except IdentifierError AttributeContainerIdentifier :=
  match splitOnChar '.' cs with
  | [namePart, seqPart] =>
    match parseIntChars seqPart with
    | some s => .ok ⟨some namePart, some s⟩
    | none => .error .malformed
  | _ => .error .malformed

/-- The code point of the digit character for `d < 10`. -/
theorem digitChar10_toNat (d : Nat) (hd : d < 10) :
    (digitChar10 d).toNat = 48 + d := by
  interval_cases d <;> rfl

/-- The decimal rendering of an integer never contains a dot. -/
theorem dot_not_mem_intToChars (i : Int) : '.' ∉ intToChars i := by
  have hnat : ∀ n : Nat, '.' ∉ natToChars n := by
    intro n hm
    obtain ⟨d, hd, hc⟩ := natToChars_digits n '.' hm
    have := congrArg Char.toNat hc
    rw [digitChar10_toNat d hd] at this
    have h46 : ('.').toNat = 46 := rfl
    omega
  unfold intToChars
  by_cases hi : i < 0
  · simp only [hi, if_true]
    intro hm
    rcases List.mem_cons.mp hm with h | h
    · exact absurd h (by decide)
    · exact hnat _ h
  · simp only [hi, if_false]
    exact hnat _

/-! ## Claim C5 -/

/-- C5 (amended): for a container type name that is non-empty and contains
no `'.'`, and a sequence number ≥ 1, `CopyFromString` parses the canonical
string produced by `CopyToString` back to an equal identifier; and
`CopyToString` returns nothing when either field is unset.  (For a name
containing a `'.'`, Python `split('.')` yields more than two parts and the
round trip fails, see the counterexample.) -/
theorem identifier_roundtrip (name : List Char) (seq : Int)
    (hname : name ≠ []) (hdot : '.' ∉ name) (hseq : 1 ≤ seq) :
    CopyToString ⟨some name, some seq⟩ =
        some (name ++ '.' :: intToChars seq) ∧
    CopyFromString (name ++ '.' :: intToChars seq) =
        .ok ⟨some name, some seq⟩ ∧
    CopyToString ⟨none, some seq⟩ = none ∧
    CopyToString ⟨some name, none⟩ = none := by
  refine ⟨rfl, ?_, rfl, rfl⟩
  have h1 : splitOnChar '.' (name ++ '.' :: intToChars seq) =
      [name, intToChars seq] := by
    rw [splitOnChar_append '.' name (intToChars seq) hdot,
        splitOnChar_no_sep '.' (intToChars seq) (dot_not_mem_intToChars seq)]
  simp only [CopyFromString, h1, parseIntChars_intToChars]

/-- Witness for C5 at the concrete pair `("event", 1)`. -/
theorem identifier_roundtrip_witness :
    CopyToString ⟨some ['e', 'v', 'e', 'n', 't'], some 1⟩ =
        some (['e', 'v', 'e', 'n', 't'] ++ '.' :: intToChars 1) ∧
    CopyFromString (['e', 'v', 'e', 'n', 't'] ++ '.' :: intToChars 1) =
        .ok ⟨some ['e', 'v', 'e', 'n', 't'], some 1⟩ ∧
    CopyToString ⟨none, some 1⟩ = none ∧
    CopyToString ⟨some ['e', 'v', 'e', 'n', 't'], none⟩ = none :=
  identifier_roundtrip ['e', 'v', 'e', 'n', 't'] 1 (by decide) (by decide)
    (by decide)

/-- C5 counterexample: the container type name `"a.b"` is non-empty with
sequence number `1 ≥ 1`, yet parsing its canonical string `"a.b.1"` fails
(Python unpacking of `split('.')` raises `ValueError` on three parts), so
the round trip does not return the original identifier. -/
theorem identifier_roundtrip_counterexample :
    (['a', '.', 'b'] : List Char) ≠ [] ∧ (1 : Int) ≥ 1 ∧
    CopyToString ⟨some ['a', '.', 'b'], some 1⟩ =
        some ['a', '.', 'b', '.', '1'] ∧
    CopyFromString ['a', '.', 'b', '.', '1'] = .error .malformed := by
  refine ⟨by decide, by decide, rfl, rfl⟩

/-! ## Claim C4: the filter expression translator

From `src/acstore/sqlite_store.py`, function `PythonAST2SQL`.  The Python
`ast` node shapes the function inspects (and the ones it rejects) are
modelled as one inductive type; `ast.Num`/`ast.Str` are the deprecated
aliases of integer/string `ast.Constant` nodes and are folded into the
constant constructors, which the source translates identically. -/

/-- Python `ast.And` / `ast.Or`. -/
inductive PyBoolOperator
  | andOp
  | orOp
deriving DecidableEq

/-- Python comparison operators; the source supports only `Eq`/`NotEq`. -/
inductive PyCompareOperator
  | eq
  | notEq
  | lt
  | ltE
  | gt
  | gtE
  | isOp
  | isNotOp
  | inOp
  | notInOp
deriving DecidableEq

/-- Python arithmetic (`ast.BinOp`) operators, all unsupported. -/
inductive PyBinOperator
  | add
  | sub
  | mult
  | divOp
  | modOp
  | powOp
deriving DecidableEq

/-- Python unary (`ast.UnaryOp`) operators, all unsupported. -/
inductive PyUnaryOperator
  | notOp
  | uSub
  | uAdd
  | invert
deriving DecidableEq

/-- The Python AST fragment over which `PythonAST2SQL` is defined. -/
inductive PyAST where
  | boolOp (op : PyBoolOperator) (values : List PyAST)
  | compare (left : PyAST) (ops : List PyCompareOperator)
      (comparators : List PyAST)
  | constantStr (s : String)
  | constantInt (n : Int)
  | name (id : String)
  | binOp (left : PyAST) (op : PyBinOperator) (right : PyAST)
  | unaryOp (op : PyUnaryOperator) (operand : PyAST)
  | call (func : PyAST) (args : List PyAST)

/-- The `TypeError` that `PythonAST2SQL` raises on an unsupported node;
the specification calls this failure `UnsupportedExpression`. -/
inductive PyTypeError
  | typeError
deriving DecidableEq

mutual

/-- `PythonAST2SQL`: converts a Python AST to a SQL predicate string, or
raises `TypeError` on any node shape outside the supported set. -/
def PythonAST2SQL : PyAST → Except PyTypeError String
  | .boolOp op values => do
    let operand := match op with
      | .andOp => " AND "
      | .orOp => " OR "
    let parts ← PythonAST2SQLList values
    return String.intercalate operand parts
  | .compare left ops comparators =>
    match ops with
    | [cmpOp] =>
      match (match cmpOp with
             | .eq => some " = "
             | .notEq => some " <> "
             | _ => none : Option String) with
      | some opStr =>
        match comparators with
        | [right] => do
          let sqlLeft ← PythonAST2SQL left
          let sqlRight ← PythonAST2SQL right
          return sqlLeft ++ opStr ++ sqlRight
        | _ => .error .typeError
      | none => .error .typeError
    | _ => .error .typeError
  | .constantStr s => .ok ("\"" ++ s ++ "\"")
  | .constantInt n => .ok (String.mk (intToChars n))
  | .name id => .ok id
  | .binOp _ _ _ => .error .typeError
  | .unaryOp _ _ => .error .typeError
  | .call _ _ => .error .typeError

/-- Translates each operand of a `BoolOp` in order, propagating the first
`TypeError` (so no partial translation is produced). -/
def PythonAST2SQLList : List PyAST → Except PyTypeError (List String)
  | [] => .ok []
  | x :: xs => do
    let s ← PythonAST2SQL x
    let rest ← PythonAST2SQLList xs
    return s :: rest

end

/-- The AST that Python `ast.parse("a == 1 and b == \"x\"", mode="eval")`
produces for the specification's example filter expression. -/
def exampleFilterAST : PyAST :=
  .boolOp .andOp
    [.compare (.name "a") [.eq] [.constantInt 1],
     .compare (.name "b") [.eq] [.constantStr "x"]]

/-- C4: the example expression translates to exactly `a = 1 AND b = "x"`,
and arithmetic, membership, negation and function-call nodes (in
particular subtraction) all fail with `TypeError` producing no output. -/
theorem pythonAST2SQL_spec :
    PythonAST2SQL exampleFilterAST = .ok "a = 1 AND b = \"x\"" ∧
    (∀ l op r, PythonAST2SQL (.binOp l op r) = .error .typeError) ∧
    (∀ f args, PythonAST2SQL (.call f args) = .error .typeError) ∧
    (∀ op e, PythonAST2SQL (.unaryOp op e) = .error .typeError) ∧
    (∀ l r, PythonAST2SQL (.compare l [.inOp] [r]) = .error .typeError) ∧
    PythonAST2SQL (.binOp (.name "a") .sub (.constantInt 1)) =
      .error .typeError := by
  refine ⟨?_, ?_, ?_, ?_, ?_, ?_⟩
  · simp [exampleFilterAST, PythonAST2SQL, PythonAST2SQLList]
    rfl
  · intro l op r; simp [PythonAST2SQL]
  · intro f args; simp [PythonAST2SQL]
  · intro op e; simp [PythonAST2SQL]
  · intro l r; simp [PythonAST2SQL]
  · simp [PythonAST2SQL]

/-! ## Claim C3: storage metadata version gating

From `src/acstore/sqlite_store.py`, `_CheckStorageMetadata` and the class
version constants. -/

/-- `_FORMAT_VERSION`: the current storage format version. -/
def FORMAT_VERSION : Int := 20230312

/-- `_APPEND_COMPATIBLE_FORMAT_VERSION`: the earliest in-file format version
this class can append (write) to. -/
def APPEND_COMPATIBLE_FORMAT_VERSION : Int := 20221023

/-- `_UPGRADE_COMPATIBLE_FORMAT_VERSION`: the earliest in-file format version
this class can upgrade. -/
def UPGRADE_COMPATIBLE_FORMAT_VERSION : Int := 20221023

/-- `_READ_COMPATIBLE_FORMAT_VERSION`: the earliest in-file format version
this class can read. -/
def READ_COMPATIBLE_FORMAT_VERSION : Int := 20221023

/-- The distinct `IOError` outcomes of `_CheckStorageMetadata`; the
specification names them `InvalidMetadata`, `TooOldToWrite`, `TooOldToRead`,
`TooNewToRead` and `UnsupportedSerialization`. -/
inductive MetadataError
  | missingFormatVersion
  | invalidFormatVersion
  | tooOldToWrite
  | tooOldToRead
  | tooNewToRead
  | unsupportedSerialization
deriving DecidableEq

/-- Lookup in the dictionary Python builds from `SELECT key, value` rows:
a dict comprehension keeps the last row for a duplicated key. -/
def dictGet (rows : List (String × String)) (key : String) : Option String :=
  (rows.reverse.find? (fun kv => kv.1 == key)).map Prod.snd

/-- `_CheckStorageMetadata`: requires a non-empty `format_version` that
parses as a base-10 integer, rejects versions below the append floor when
opening for writing, below the read floor, or above the current version,
and requires `serialization_format` to be `json`.  Returns the parsed
format version. -/
def CheckStorageMetadata (metadata_values : List (String × String))
    (check_readable_only : Bool) : Except MetadataError Int :=
  match dictGet metadata_values "format_version" with
  | none => .error .missingFormatVersion
  | some s =>
    if s = "" then .error .missingFormatVersion
    else
      match parseIntChars s.data with
      | none => .error .invalidFormatVersion
      | some format_version =>
        if ¬ check_readable_only ∧
            format_version < APPEND_COMPATIBLE_FORMAT_VERSION then
          .error .tooOldToWrite
        else if format_version < READ_COMPATIBLE_FORMAT_VERSION then
          .error .tooOldToRead
        else if format_version > FORMAT_VERSION then
          .error .tooNewToRead
        else if dictGet metadata_values "serialization_format" ≠ some "json"
        then .error .unsupportedSerialization
        else .ok format_version

/-- A stored metadata record with format version `v` and, optionally, a
`serialization_format` value. -/
def mkMetadataValues (v : Int) (ser : Option String) :
    List (String × String) :=
  ("format_version", String.mk (intToChars v)) ::
    (match ser with
     | some s => [("serialization_format", s)]
     | none => [])

/-- The decimal rendering of an integer is never the empty string. -/
theorem intToChars_ne_nil (i : Int) : intToChars i ≠ [] := by
  unfold intToChars
  by_cases hi : i < 0
  · simp [hi]
  · simp only [hi, if_false]
    exact natToChars_ne_nil _

/-- C3: for every stored format version `v` and serialization format:
opening read-write is rejected with `TooOldToWrite` exactly when `v` is
below the append-compatible floor; opening read-only succeeds exactly when
`v` is between the read-compatible floor and the current version and the
serialization format is `json`; and the store is readable-but-not-writable
exactly when additionally `v` is below the append floor (the floors are
separate constants; with both floors equal to 20221023 in this code that
band is empty). -/
theorem version_gating (v : Int) (ser : Option String) :
    (CheckStorageMetadata (mkMetadataValues v ser) false =
        .error .tooOldToWrite ↔ v < APPEND_COMPATIBLE_FORMAT_VERSION) ∧
    (CheckStorageMetadata (mkMetadataValues v ser) true = .ok v ↔
      (READ_COMPATIBLE_FORMAT_VERSION ≤ v ∧ v ≤ FORMAT_VERSION ∧
        ser = some "json")) ∧
    ((CheckStorageMetadata (mkMetadataValues v ser) true = .ok v ∧
        CheckStorageMetadata (mkMetadataValues v ser) false ≠ .ok v) ↔
      (READ_COMPATIBLE_FORMAT_VERSION ≤ v ∧ v ≤ FORMAT_VERSION ∧
        ser = some "json" ∧ v < APPEND_COMPATIBLE_FORMAT_VERSION)) := by
  have hfv : dictGet (mkMetadataValues v ser) "format_version" =
      some (String.mk (intToChars v)) := by
    cases ser <;> simp [mkMetadataValues, dictGet]
  have hser : dictGet (mkMetadataValues v ser) "serialization_format" =
      ser := by
    cases ser <;> simp [mkMetadataValues, dictGet]
  have hne : ¬ (String.mk (intToChars v) = "") := by
    intro h
    exact intToChars_ne_nil v (congrArg String.data h)
  have hparse : parseIntChars (String.mk (intToChars v)).data = some v :=
    parseIntChars_intToChars v
  have hcheck : ∀ ro : Bool,
      CheckStorageMetadata (mkMetadataValues v ser) ro =
        (if (¬ ro = true) ∧ v < APPEND_COMPATIBLE_FORMAT_VERSION then
          .error .tooOldToWrite
        else if v < READ_COMPATIBLE_FORMAT_VERSION then
          .error .tooOldToRead
        else if v > FORMAT_VERSION then .error .tooNewToRead
        else if ser ≠ some "json" then .error .unsupportedSerialization
        else .ok v) := by
    intro ro
    simp only [CheckStorageMetadata, hfv, hne, if_false, hparse, hser]
  rw [hcheck true, hcheck false]
  unfold APPEND_COMPATIBLE_FORMAT_VERSION READ_COMPATIBLE_FORMAT_VERSION
    FORMAT_VERSION
  by_cases hj : ser = some "json" <;>
    split_ifs <;> simp_all

/-! ## Claim C7: the static format-support probe

From `src/acstore/sqlite_store.py`, classmethod `CheckSupportedFormat`. -/

/-- What lies at a filesystem path, as far as `CheckSupportedFormat` can
distinguish: no existing file; a file that is not a SQLite database (the
connection or query raises `sqlite3.DatabaseError`); a database without a
`metadata` table (the `SELECT` raises `sqlite3.OperationalError`, a
subclass of `DatabaseError`); or a database whose `metadata` table holds
the given key/value rows. -/
inductive StoreFile
  | noFile
  | notADatabase
  | missingMetadataTable
  | withMetadata (rows : List (String × String))

/-- `UnboundLocalError`, a subclass of `NameError`: reading a local
variable before any assignment.  It is not caught by an `except` clause
listing `IOError`, `TypeError`, `ValueError` and `sqlite3.DatabaseError`. -/
inductive PyRuntimeError
  | unboundLocalError
deriving DecidableEq

/-- `CheckSupportedFormat`: returns `False` when no file exists at the path
(explicitly guarding against sqlite3 creating an empty database file), and
`False` when connecting or querying raises a caught exception.  On the
query-success path the local `result` is assigned only when
`int(format_version, 10)` succeeds; when `format_version` is missing,
falsy, or unparsable, the final `return result` reads an unassigned local
and raises `UnboundLocalError`, which the `except` clause does not catch. -/
def CheckSupportedFormat (file : StoreFile) : Except PyRuntimeError Bool :=
  match file with
  | .noFile => .ok false
  | .notADatabase => .ok false
  | .missingMetadataTable => .ok false
  | .withMetadata rows =>
    match dictGet rows "format_version" with
    | none => .error .unboundLocalError
    | some s =>
      if s = "" then .error .unboundLocalError
      else
        match parseIntChars s.data with
        | some _ => .ok true
        | none => .error .unboundLocalError

/-- C7: `CheckSupportedFormat` does return `False` for a missing file and
for undecodable databases, but a store whose metadata table lacks a
parsable integer `format_version` makes it raise `UnboundLocalError`
(the local `result` is never assigned on that path) instead of returning
`False` — the probe is not total as the claim states. -/
theorem checkSupportedFormat_unbound :
    CheckSupportedFormat .noFile = .ok false ∧
    CheckSupportedFormat .notADatabase = .ok false ∧
    CheckSupportedFormat .missingMetadataTable = .ok false ∧
    CheckSupportedFormat
        (.withMetadata [("serialization_format", "json")]) =
      .error .unboundLocalError ∧
    CheckSupportedFormat (.withMetadata [("format_version", "abc")]) =
      .error .unboundLocalError := by
  refine ⟨rfl, rfl, rfl, ?_, ?_⟩ <;> rfl

/-! ## Claim C9: the attribute container manager registry

From `src/acstore/containers/manager.py`, class
`AttributeContainersManager`.  The class-level mutable registry becomes an
explicit association list threaded through the class methods. -/

/-- An attribute container class: its `CONTAINER_TYPE` tag and its `SCHEMA`
class attribute (empty when the class declares none, matching
`getattr(container_class, 'SCHEMA', {})`). -/
structure AttributeContainerClass where
  containerType : String
  schema : List (String × String)
deriving DecidableEq

/-- Python `str.lower()`; the registry's container types are ASCII. -/
def pyLower (s : String) : String := String.mk (s.data.map Char.toLower)

/-- The registry's failures: `ValueError` (unsupported container type) from
the verbatim lookups, `KeyError` from double registration. -/
inductive ManagerError
  | unsupportedContainerType
  | keyError
deriving DecidableEq

/-- `AttributeContainersManager.RegisterAttributeContainer`: keys the
registry by the lower-cased `CONTAINER_TYPE`, refusing a duplicate. -/
def RegisterAttributeContainer
    (classes : List (String × AttributeContainerClass))
    (cls : AttributeContainerClass) :
    Except ManagerError (List (String × AttributeContainerClass)) :=
  let container_type := pyLower cls.containerType
  if (classes.find? (fun kv => kv.1 == container_type)).isSome then
    .error .keyError
  else .ok (classes ++ [(container_type, cls)])

/-- `AttributeContainersManager.GetSchema`: looks the given container type
up verbatim, with no lower-casing. -/
def GetSchema (classes : List (String × AttributeContainerClass))
    (container_type : String) :
    Except ManagerError (List (String × String)) :=
  match classes.find? (fun kv => kv.1 == container_type) with
  | some kv => .ok kv.2.schema
  | none => .error .unsupportedContainerType

/-- `AttributeContainersManager.CreateAttributeContainer`: verbatim lookup
of the container type, yielding a fresh instance of the registered class
(represented by the class itself). -/
def CreateAttributeContainer
    (classes : List (String × AttributeContainerClass))
    (container_type : String) :
    Except ManagerError AttributeContainerClass :=
  match classes.find? (fun kv => kv.1 == container_type) with
  | some kv => .ok kv.2
  | none => .error .unsupportedContainerType

/-- C9: registering a class whose `CONTAINER_TYPE` contains an uppercase
letter (so that lower-casing changes it) stores it under the lower-cased
key, and the verbatim lookups `GetSchema` and `CreateAttributeContainer`
then fail with the unsupported-type error on the class's own
`CONTAINER_TYPE` string while succeeding on its lower-cased form. -/
theorem registry_case_asymmetry (cls : AttributeContainerClass)
    (classes' : List (String × AttributeContainerClass))
    (hreg : RegisterAttributeContainer [] cls = .ok classes')
    (hupper : pyLower cls.containerType ≠ cls.containerType) :
    GetSchema classes' cls.containerType =
        .error .unsupportedContainerType ∧
    CreateAttributeContainer classes' cls.containerType =
        .error .unsupportedContainerType ∧
    GetSchema classes' (pyLower cls.containerType) = .ok cls.schema ∧
    CreateAttributeContainer classes' (pyLower cls.containerType) =
        .ok cls := by
  have hcl : classes' = [(pyLower cls.containerType, cls)] := by
    simp only [RegisterAttributeContainer, List.find?, Option.isSome_none,
      Bool.false_eq_true, if_false, List.nil_append,
      Except.ok.injEq] at hreg
    exact hreg.symm
  subst hcl
  have hbeq : (pyLower cls.containerType == cls.containerType) = false :=
    beq_eq_false_iff_ne.mpr hupper
  refine ⟨?_, ?_, ?_, ?_⟩ <;>
    simp [GetSchema, CreateAttributeContainer, List.find?, hbeq]

/-- Witness for C9 at a concrete class with `CONTAINER_TYPE = "Event"`. -/
theorem registry_case_asymmetry_witness :
    GetSchema [("event", ⟨"Event", [("a", "int")]⟩)] "Event" =
        .error .unsupportedContainerType ∧
    CreateAttributeContainer [("event", ⟨"Event", [("a", "int")]⟩)]
        "Event" = .error .unsupportedContainerType ∧
    GetSchema [("event", ⟨"Event", [("a", "int")]⟩)]
        (pyLower "Event") = .ok [("a", "int")] ∧
    CreateAttributeContainer [("event", ⟨"Event", [("a", "int")]⟩)]
        (pyLower "Event") = .ok ⟨"Event", [("a", "int")]⟩ :=
  registry_case_asymmetry ⟨"Event", [("a", "int")]⟩
    [("event", ⟨"Event", [("a", "int")]⟩)] (by rfl) (by decide)

/-! ## The SQLite attribute container store engine

From `src/acstore/sqlite_store.py`, class `SQLiteAttributeContainerStore`.
The engine's mutable state (SQLite tables, write-back buffers, read cache,
sequence counters) becomes an explicit `EngineState`.  Schema data types
are restricted to the four primitive tags of `_MAPPINGS`
(`bool`/`int`/`str`/`timestamp`); the JSON-codec tags play no role in the
claims about the engine. -/

/-- A Python runtime or SQLite-stored attribute value. -/
inductive Value
  | none
  | bool (b : Bool)
  | int (n : Int)
  | str (s : String)
deriving DecidableEq

/-- A schema data type tag from `SQLiteSchemaHelper._MAPPINGS`. -/
inductive DataType
  | bool
  | int
  | str
  | timestamp
deriving DecidableEq

/-- The `ValueError` Python `int(...)` raises on a non-numeric string. -/
inductive SerializeError
  | valueError
deriving DecidableEq

/-- `SQLiteSchemaHelper.SerializeValue` on the `_MAPPINGS` data types: a
None value passes through; a `bool` attribute is converted with Python
`int(value)` (0/1 for a bool, identity for an int, decimal parse — raising
`ValueError` on failure — for a str); the other `_MAPPINGS` types pass
through unchanged. -/
def SerializeValue (data_type : DataType) (value : Value) :
    Except SerializeError Value :=
  match value with
  | .none => .ok .none
  | .bool b =>
    match data_type with
    | .bool => .ok (.int (if b then 1 else 0))
    | _ => .ok (.bool b)
  | .int n =>
    match data_type with
    | .bool => .ok (.int n)
    | _ => .ok (.int n)
  | .str s =>
    match data_type with
    | .bool =>
      match parseIntChars s.data with
      | some n => .ok (.int n)
      | Option.none => .error .valueError
    | _ => .ok (.str s)

/-- `SQLiteSchemaHelper.DeserializeValue` on the `_MAPPINGS` data types: a
None value passes through; a `bool` column applies Python `bool(value)`
truthiness; the other `_MAPPINGS` types pass through unchanged. -/
def DeserializeValue (data_type : DataType) (value : Value) : Value :=
  match value with
  | .none => .none
  | .bool b =>
    match data_type with
    | .bool => .bool b
    | _ => .bool b
  | .int n =>
    match data_type with
    | .bool => .bool (n != 0)
    | _ => .int n
  | .str s =>
    match data_type with
    | .bool => .bool (s != "")
    | _ => .str s

/-- A value is well-typed for a schema data type when it is None or has
the type's runtime shape. -/
def ValueWellTyped (data_type : DataType) (value : Value) : Bool :=
  match value, data_type with
  | .none, _ => true
  | .bool _, .bool => true
  | .int _, .int => true
  | .int _, .timestamp => true
  | .str _, .str => true
  | _, _ => false

/-- Serialization round-trips on well-typed values. -/
theorem deserialize_serialize (dt : DataType) (v : Value)
    (h : ValueWellTyped dt v = true) :
    ∃ w, SerializeValue dt v = .ok w ∧ DeserializeValue dt w = v := by
  cases v with
  | none => exact ⟨.none, rfl, rfl⟩
  | bool b =>
    cases dt <;> simp_all [ValueWellTyped]
    cases b <;> exact ⟨_, rfl, rfl⟩
  | int n =>
    cases dt <;> simp_all [ValueWellTyped] <;> exact ⟨_, rfl, rfl⟩
  | str s =>
    cases dt <;> simp_all [ValueWellTyped]
    exact ⟨_, rfl, rfl⟩

/-- An attribute container value: its `CONTAINER_TYPE`, its identifier
fields (as set by `SetIdentifier`), and its attribute values (an absent
name reads as Python None through `getattr(..., name, None)`). -/
structure Container where
  containerType : String
  identName : String
  identSeq : Int
  attrs : List (String × Value)
deriving DecidableEq

/-- `getattr(container, name, None)`. -/
def getattrValue (c : Container) (name : String) : Value :=
  match c.attrs.find? (fun kv => decide (kv.1 = name)) with
  | some kv => kv.2
  | none => .none

/-! ### Association-list helpers (Python dict semantics) -/

/-- Dict lookup by key. -/
def alGet {κ α : Type} [DecidableEq κ] (l : List (κ × α)) (k : κ) :
    Option α :=
  match l.find? (fun kv => decide (kv.1 = k)) with
  | some kv => some kv.2
  | none => none

/-- Dict removal of a key. -/
def alErase {κ α : Type} [DecidableEq κ] (l : List (κ × α)) (k : κ) :
    List (κ × α) :=
  l.filter (fun kv => !decide (kv.1 = k))

/-- Dict update of a key.  (A Python dict keeps insertion order, which no
observable behaviour of the engine depends on: each type's flushed rows go
to that type's own table; this model keeps the updated binding first.) -/
def alSet {κ α : Type} [DecidableEq κ] (l : List (κ × α)) (k : κ) (v : α) :
    List (κ × α) :=
  (k, v) :: alErase l k

/-! ### Schemas and the registered container types -/

/-- The registered container types: container type ↦ schema.  The engine
consults (never mutates) the registry, so it is a fixed parameter. -/
abbrev Registry := List (String × List (String × DataType))

/-- Modelled from the spec: the engine's schema lookup
`_GetAttributeContainerSchema` (defined in the repository's
`acstore/interface.py`, which is not under `src/`) follows the interface
contract `SchemaOf(typeName) -> mapping<name, dataTypeTag> | {}`: the
registered schema, or an empty mapping for an unknown type. -/
def schemaOf (reg : Registry) (container_type : String) :
    List (String × DataType) :=
  (alGet reg container_type).getD []

/-- `sorted(schema.items())`: the schema attributes in name order (schema
keys are distinct, so ordering by name equals Python tuple ordering). -/
def sortedSchema (reg : Registry) (container_type : String) :
    List (String × DataType) :=
  (schemaOf reg container_type).insertionSort (fun a b => a.1 ≤ b.1)

/-- The serialized row of a container's schema attributes in sorted name
order, as `_WriteNewAttributeContainer` / `_WriteExistingAttributeContainer`
build it; the first `ValueError` propagates. -/
def serializeRow (schema : List (String × DataType)) (c : Container) :
    Except SerializeError (List Value) :=
  match schema with
  | [] => .ok []
  | (name, dt) :: rest => do
    let v ← SerializeValue dt (getattrValue c name)
    let vs ← serializeRow rest c
    return v :: vs

/-- The schema attribute values of a container, in sorted name order. -/
def schemaValues (reg : Registry) (container_type : String)
    (c : Container) : List Value :=
  (sortedSchema reg container_type).map (fun p => getattrValue c p.1)

/-- The attribute values a reader reconstructs from a stored row (None
columns are skipped, and a skipped attribute reads back as None). -/
def readBackRow (schema : List (String × DataType)) (row : List Value) :
    List Value :=
  (schema.zip row).map (fun pv => DeserializeValue pv.1.2 pv.2)

/-- `_CreatetAttributeContainerFromRow` together with
`CreateAttributeContainer`: a fresh container of the type whose non-None
columns are set to their deserialized values (identifier fields are
overwritten by the caller's `SetIdentifier`). -/
def reconstructContainer (container_type : String)
    (schema : List (String × DataType)) (row : List Value) : Container :=
  { containerType := container_type
    identName := container_type
    identSeq := 0
    attrs := (schema.zip row).filterMap
      (fun pv =>
        if pv.2 = Value.none then Option.none
        else some (pv.1.1, DeserializeValue pv.1.2 pv.2)) }

/-! ### The engine state -/

/-- The write-back buffer of one container type: the column-name header
that the Python buffer list carries at position 0, and the pending
serialized rows behind it. -/
structure WriteBuf where
  header : List String
  rows : List (List Value)
deriving DecidableEq

/-- The mutable state of a `SQLiteAttributeContainerStore`.  A table's row
at list position `i` has rowid / `_identifier` column `i + 1` (rowids are
assigned densely and acstore never deletes rows). -/
structure EngineState where
  tables : List (String × List (List Value))
  writeCache : List (String × WriteBuf)
  readCache : List ((String × Int) × Container)
  seqNumbers : List (String × Nat)
deriving DecidableEq

/-- The state of a freshly opened (empty) store: `__init__` plus `Open` on
a new file — empty caches, no container tables, all sequence counters 0. -/
def initialState : EngineState := ⟨[], [], [], []⟩

/-- `_MAXIMUM_CACHED_CONTAINERS = 32 * 1024`. -/
def MAXIMUM_CACHED_CONTAINERS : Nat := 32 * 1024

/-- `_MAXIMUM_WRITE_CACHE_SIZE = 50`, measured on the Python buffer list
whose element 0 is the column-name header. -/
def MAXIMUM_WRITE_CACHE_SIZE : Nat := 50

/-- The `IOError`/`OSError`/`ValueError` failures of the engine. -/
inductive EngineError
  | unsupportedContainerType
  | storageQueryFailed
  | valueError
deriving DecidableEq

/-- `_HasTable`. -/
def HasTable (s : EngineState) (table_name : String) : Bool :=
  (alGet s.tables table_name).isSome

/-- `_CacheAttributeContainerByIndex`: evicts from the least-recently-used
end when the cache is full (`popitem(last=True)`; promoted and fresh
entries sit at the front, so the back is the LRU end), then stores the
container under `"{type}.{index}"` as most recently used. -/
def CacheAttributeContainerByIndex (s : EngineState) (c : Container)
    (index : Int) : EngineState :=
  let rc := if MAXIMUM_CACHED_CONTAINERS ≤ s.readCache.length
    then s.readCache.dropLast else s.readCache
  { s with readCache := (((c.containerType, index), c) ::
      alErase rc (c.containerType, index)) }

/-- `_GetCachedAttributeContainer`: on a hit the entry is promoted to most
recently used (`move_to_end(..., last=False)`). -/
def GetCachedAttributeContainer (s : EngineState) (container_type : String)
    (index : Int) : Option Container × EngineState :=
  match alGet s.readCache (container_type, index) with
  | some c =>
    (some c, { s with readCache := (((container_type, index), c) ::
        alErase s.readCache (container_type, index)) })
  | none => (none, s)

/-- `_FlushWriteCache`: one batched INSERT of the buffered rows into the
type's table.  In this model the INSERT fails exactly when the table does
not exist (the SQLite `OperationalError` becomes `storageQueryFailed`,
raised as IOError); under the structural invariant a buffer's table always
exists and this path is unreachable. -/
def FlushWriteCache (s : EngineState) (container_type : String)
    (buf : WriteBuf) : EngineState × Option EngineError :=
  match alGet s.tables container_type with
  | some rows =>
    ({ s with tables := alSet s.tables container_type (rows ++ buf.rows) },
     none)
  | none => (s, some .storageQueryFailed)

/-- `_CacheAttributeContainerForWrite`: appends the row to the type's
buffer (created seeded with the column-name header when absent) and
flushes when the Python list — header plus pending rows — reaches
`_MAXIMUM_WRITE_CACHE_SIZE`, after which the stored buffer is reset to the
header only. -/
def CacheAttributeContainerForWrite (s : EngineState)
    (container_type : String) (column_names : List String)
    (values : List Value) : EngineState × Option EngineError :=
  let buf0 := (alGet s.writeCache container_type).getD ⟨column_names, []⟩
  let buf := { buf0 with rows := buf0.rows ++ [values] }
  if MAXIMUM_WRITE_CACHE_SIZE ≤ buf.rows.length + 1 then
    match FlushWriteCache s container_type buf with
    | (s1, some e) => (s1, some e)
    | (s1, none) =>
      ({ s1 with writeCache :=
          (alSet s1.writeCache container_type ⟨column_names, []⟩) }, none)
  else
    ({ s with writeCache := alSet s.writeCache container_type buf }, none)

/-- `_CommitWriteCache`: flushes and removes the type's buffer when it
holds at least one pending row (`len(write_cache) > 1` counts the
header). -/
def CommitWriteCache (s : EngineState) (container_type : String) :
    EngineState × Option EngineError :=
  match alGet s.writeCache container_type with
  | some buf =>
    if 0 < buf.rows.length then
      match FlushWriteCache s container_type buf with
      | (s1, some e) => (s1, some e)
      | (s1, none) =>
        ({ s1 with writeCache := alErase s1.writeCache container_type },
         none)
    else (s, none)
  | none => (s, none)

/-- The loop of `_Flush` over the buffered types, in buffer order; a raise
propagates before the write cache is cleared. -/
def FlushAllGo (entries : List (String × WriteBuf)) (acc : EngineState) :
    EngineState × Option EngineError :=
  match entries with
  | [] => ({ acc with writeCache := [] }, none)
  | (t, buf) :: rest =>
    if 0 < buf.rows.length then
      match FlushWriteCache acc t buf with
      | (s1, some e) => (s1, some e)
      | (s1, none) => FlushAllGo rest s1
    else FlushAllGo rest acc

/-- `_Flush`: flushes every type's buffer with pending rows, clears the
write cache, then commits the transaction (the commit itself has no
observable effect in this model of a store that does not crash). -/
def Flush (s : EngineState) : EngineState × Option EngineError :=
  FlushAllGo s.writeCache s

/-- Modelled from the spec: `_GetAttributeContainerNextSequenceNumber`
(defined in the repository's `acstore/interface.py`, which is not under
`src/`) increments the per-type counter and returns the new value —
identifiers are "assigned only once, at first write" with "correct,
monotonically increasing" sequence numbers; the counter is a
`collections.Counter`, so an absent type reads 0. -/
def GetAttributeContainerNextSequenceNumber (s : EngineState)
    (container_type : String) : Nat × EngineState :=
  let next := (alGet s.seqNumbers container_type).getD 0 + 1
  (next, { s with seqNumbers := alSet s.seqNumbers container_type next })

/-- `_CreateAttributeContainerTable`: raises on a type without a schema;
otherwise creates the (empty) table whose columns are the identity column
plus the sorted schema attribute names. -/
def CreateAttributeContainerTable (reg : Registry) (s : EngineState)
    (container_type : String) : EngineState × Option EngineError :=
  if schemaOf reg container_type = [] then
    (s, some .unsupportedContainerType)
  else
    ({ s with tables := alSet s.tables container_type [] }, none)

/-- `_WriteNewAttributeContainer`: takes the next sequence number, creates
the type's table on the first write if absent, attaches the new identifier
to the container, raises on a type without a schema, serializes the sorted
schema attributes, appends the row to the type's write-back buffer, and
finally places the container in the read cache under its new index. -/
def WriteNewAttributeContainer (reg : Registry) (s : EngineState)
    (c : Container) : EngineState × Option EngineError :=
  let next := GetAttributeContainerNextSequenceNumber s c.containerType
  let next_sequence_number := next.1
  let s := next.2
  match (if next_sequence_number = 1 ∧ ¬ HasTable s c.containerType
         then CreateAttributeContainerTable reg s c.containerType
         else (s, none)) with
  | (s, some e) => (s, some e)
  | (s, none) =>
    let c := { c with identName := c.containerType,
                      identSeq := (next_sequence_number : Int) }
    if schemaOf reg c.containerType = [] then
      (s, some .unsupportedContainerType)
    else
      match serializeRow (sortedSchema reg c.containerType) c with
      | .error _ => (s, some .valueError)
      | .ok row_values =>
        let column_names := (sortedSchema reg c.containerType).map Prod.fst
        match CacheAttributeContainerForWrite s c.containerType
            column_names row_values with
        | (s, some e) => (s, some e)
        | (s, none) =>
          (CacheAttributeContainerByIndex s c
            ((next_sequence_number : Int) - 1), none)

/-- `SELECT ... WHERE rowid = row_number` on a table's rows: the row at
list position `row_number - 1`, none when no row has that rowid. -/
def rowAt (rows : List (List Value)) (row_number : Int) :
    Option (List Value) :=
  if 1 ≤ row_number then rows.get? (row_number - 1).toNat else none

/-- `GetAttributeContainerByIndex`: serves the read cache first (promoting
on a hit); otherwise commits the type's write buffer, returns not-found
when the type's sequence counter is 0, raises on a type without a schema,
selects the row at position `index + 1`, reconstructs the container,
attaches the identifier computed from the row position, and caches it. -/
def GetAttributeContainerByIndex (reg : Registry) (s : EngineState)
    (container_type : String) (index : Int) :
    (Option Container × EngineState) × Option EngineError :=
  match GetCachedAttributeContainer s container_type index with
  | (some c, s) => ((some c, s), none)
  | (none, s) =>
    match CommitWriteCache s container_type with
    | (s, some e) => ((none, s), some e)
    | (s, none) =>
      if (alGet s.seqNumbers container_type).getD 0 = 0 then
        ((none, s), none)
      else if schemaOf reg container_type = [] then
        ((none, s), some .unsupportedContainerType)
      else
        match alGet s.tables container_type with
        | none => ((none, s), some .storageQueryFailed)
        | some rows =>
          match rowAt rows (index + 1) with
          | none => ((none, s), none)
          | some row =>
            let c := reconstructContainer container_type
              (sortedSchema reg container_type) row
            let c := { c with identName := container_type,
                              identSeq := index + 1 }
            ((some c, CacheAttributeContainerByIndex s c index), none)

/-- `GetAttributeContainerByIdentifier`: delegates to
`GetAttributeContainerByIndex` at `identifier.sequence_number - 1`. -/
def GetAttributeContainerByIdentifier (reg : Registry) (s : EngineState)
    (container_type : String) (sequence_number : Int) :
    (Option Container × EngineState) × Option EngineError :=
  GetAttributeContainerByIndex reg s container_type (sequence_number - 1)

/-- `GetNumberOfAttributeContainers`: commits the type's write buffer,
returns 0 when no table exists, and otherwise
`SELECT MAX(_ROWID_) ... or 0` — the number of rows, because acstore
never deletes and rowids are dense. -/
def GetNumberOfAttributeContainers (s : EngineState)
    (container_type : String) : (Nat × EngineState) × Option EngineError :=
  match CommitWriteCache s container_type with
  | (s, some e) => ((0, s), some e)
  | (s, none) =>
    match alGet s.tables container_type with
    | none => ((0, s), none)
    | some rows => ((rows.length, s), none)

/-- `_WriteExistingAttributeContainer`: commits the type's write buffer
first, then raises on a type without a schema, then serializes the sorted
schema attributes and issues one UPDATE keyed by the container's
identifier sequence number (an UPDATE matching no rowid changes
nothing). -/
def WriteExistingAttributeContainer (reg : Registry) (s : EngineState)
    (c : Container) : EngineState × Option EngineError :=
  match CommitWriteCache s c.containerType with
  | (s, some e) => (s, some e)
  | (s, none) =>
    if schemaOf reg c.containerType = [] then
      (s, some .unsupportedContainerType)
    else
      match serializeRow (sortedSchema reg c.containerType) c with
      | .error _ => (s, some .valueError)
      | .ok values =>
        match alGet s.tables c.containerType with
        | none => (s, some .storageQueryFailed)
        | some rows =>
          if 1 ≤ c.identSeq ∧ c.identSeq ≤ rows.length then
            ({ s with tables := (alSet s.tables c.containerType
                (rows.set (c.identSeq - 1).toNat values)) }, none)
          else (s, none)

/-! ### Operation sequences and reachable states -/

/-- One engine operation (`acstore` offers no delete). -/
inductive Op
  | writeNew (c : Container)
  | writeExisting (c : Container)
  | readByIndex (container_type : String) (index : Int)
  | readByIdentifier (container_type : String) (sequence_number : Int)
  | getNumber (container_type : String)
  | flush

/-- Executes one operation and keeps the state it leaves behind — also
when the operation raises, since the Python exception propagates out of
the partially mutated store object. -/
def execOp (reg : Registry) (s : EngineState) : Op → EngineState
  | .writeNew c => (WriteNewAttributeContainer reg s c).1
  | .writeExisting c => (WriteExistingAttributeContainer reg s c).1
  | .readByIndex t i => (GetAttributeContainerByIndex reg s t i).1.2
  | .readByIdentifier t n =>
    (GetAttributeContainerByIdentifier reg s t n).1.2
  | .getNumber t => (GetNumberOfAttributeContainers s t).1.2
  | .flush => (Flush s).1

/-- Runs a sequence of operations from a state. -/
def runOps (reg : Registry) (ops : List Op) (s : EngineState) :
    EngineState :=
  ops.foldl (execOp reg) s

/-- All schema attribute values the container carries are well-typed for
their declared data types. -/
def ContainerWellTyped (reg : Registry) (c : Container) : Prop :=
  ∀ p ∈ sortedSchema reg c.containerType,
    ValueWellTyped p.2 (getattrValue c p.1) = true

/-- The write operations the claims range over submit well-typed
containers (schema attributes hold values of their declared types, the
data model's typing contract). -/
def OpWellTyped (reg : Registry) : Op → Prop
  | .writeNew c => ContainerWellTyped reg c
  | .writeExisting c => ContainerWellTyped reg c
  | _ => True

/-- A well-formed registry: each schema's attribute names are distinct
(Python schemas are dicts). -/
def RegistryWF (reg : Registry) : Prop :=
  ∀ p ∈ reg, (p.2.map Prod.fst).Nodup

/-- States reachable from a fresh store by well-typed operations. -/
inductive ReachWT (reg : Registry) : EngineState → Prop
  | init : ReachWT reg initialState
  | step (s : EngineState) (op : Op) : ReachWT reg s →
      OpWellTyped reg op → ReachWT reg (execOp reg s op)

/-! ## Claim C8: reading by identifier -/

/-- C8: `GetAttributeContainerByIdentifier` returns exactly what
`GetAttributeContainerByIndex` returns at `sequence_number - 1` — the same
container or not-found, the same raised error, and the same successor
state — in every store state. -/
theorem read_by_identifier_equiv (reg : Registry) (s : EngineState)
    (container_type : String) (sequence_number : Int) :
    GetAttributeContainerByIdentifier reg s container_type
        sequence_number =
      GetAttributeContainerByIndex reg s container_type
        (sequence_number - 1) := rfl

/-! ## Claim C2: the automatic flush threshold

The concrete scenario: one registered type `"event"` with schema
`{a: int}`, and 51 submissions of a new container with `a = 7`. -/

/-- The registry for the auto-flush scenario. -/
def c2Registry : Registry := [("event", [("a", DataType.int)])]

/-- One new container of type `"event"` with `a = 7`. -/
def c2Container : Container := ⟨"event", "event", 0, [("a", .int 7)]⟩

/-- The store after `n` consecutive `_WriteNewAttributeContainer` calls
with no explicit flush. -/
def c2State (n : Nat) : EngineState :=
  runOps c2Registry (List.replicate n (.writeNew c2Container)) initialState

/-- The pending (buffered, unflushed) rows of a type. -/
def pendingRowCount (s : EngineState) (t : String) : Nat :=
  (((alGet s.writeCache t).map WriteBuf.rows).getD []).length

/-- The rows already flushed into a type's table. -/
def tableRowCount (s : EngineState) (t : String) : Nat :=
  ((alGet s.tables t).getD []).length

set_option maxRecDepth 10000

/-- C2 counterexample: the claim's schedule is off by one.  After 49
writes the buffer is already empty (the automatic flush fired at the 49th
write, not the 50th, because `len(write_cache) >= 50` counts the
column-name header the buffer list carries), and after all 51 writes two
rows — not just the 51st — are pending. -/
theorem auto_flush_counterexample :
    ¬ pendingRowCount (c2State 49) "event" = 49 ∧
    ¬ pendingRowCount (c2State 51) "event" = 1 := by decide

/-- C2 (amended): writing 51 new containers of one type with no explicit
flush triggers exactly one automatic flush, at the 49th write — when the
buffer list, column-name header included, reaches
`_MAXIMUM_WRITE_CACHE_SIZE = 50`, i.e. at 49 pending rows — flushing all
49; the 50th and 51st rows stay pending until the next forced flush, and
counting the type after all 51 writes returns 51 (the count commits the
buffer first) without raising. -/
theorem auto_flush_threshold :
    tableRowCount (c2State 48) "event" = 0 ∧
    pendingRowCount (c2State 48) "event" = 48 ∧
    tableRowCount (c2State 49) "event" = 49 ∧
    pendingRowCount (c2State 49) "event" = 0 ∧
    tableRowCount (c2State 50) "event" = 49 ∧
    pendingRowCount (c2State 50) "event" = 1 ∧
    tableRowCount (c2State 51) "event" = 49 ∧
    pendingRowCount (c2State 51) "event" = 2 ∧
    (GetNumberOfAttributeContainers (c2State 51) "event").1.1 = 51 ∧
    (GetNumberOfAttributeContainers (c2State 51) "event").2 =
      Option.none := by decide

/-! ### Association-list lemmas -/

theorem alGet_cons {κ α : Type} [DecidableEq κ] (p : κ × α)
    (l : List (κ × α)) (k : κ) :
    alGet (p :: l) k = if p.1 = k then some p.2 else alGet l k := by
  by_cases h : p.1 = k <;> simp [alGet, List.find?, h]

theorem alErase_cons {κ α : Type} [DecidableEq κ] (p : κ × α)
    (l : List (κ × α)) (k : κ) :
    alErase (p :: l) k =
      if p.1 = k then alErase l k else p :: alErase l k := by
  by_cases h : p.1 = k <;> simp [alErase, List.filter, h]

theorem alGet_alErase_self {κ α : Type} [DecidableEq κ]
    (l : List (κ × α)) (k : κ) : alGet (alErase l k) k = Option.none := by
  induction l with
  | nil => rfl
  | cons p rest ih =>
    rw [alErase_cons]
    by_cases h : p.1 = k
    · simp [h, ih]
    · rw [if_neg h, alGet_cons, if_neg h, ih]

theorem alGet_alErase_ne {κ α : Type} [DecidableEq κ]
    (l : List (κ × α)) (k k' : κ) (h : k' ≠ k) :
    alGet (alErase l k) k' = alGet l k' := by
  induction l with
  | nil => rfl
  | cons p rest ih =>
    rw [alErase_cons, alGet_cons]
    by_cases hp : p.1 = k
    · rw [if_pos hp, ih, if_neg (by rw [hp]; exact fun e => h e.symm)]
    · rw [if_neg hp, alGet_cons, ih]

theorem alGet_alSet_self {κ α : Type} [DecidableEq κ]
    (l : List (κ × α)) (k : κ) (v : α) : alGet (alSet l k v) k = some v := by
  rw [alSet, alGet_cons, if_pos rfl]

theorem alGet_alSet_ne {κ α : Type} [DecidableEq κ]
    (l : List (κ × α)) (k k' : κ) (v : α) (h : k' ≠ k) :
    alGet (alSet l k v) k' = alGet l k' := by
  rw [alSet, alGet_cons, if_neg (fun e => h e.symm), alGet_alErase_ne l k k' h]

theorem alGet_mem {κ α : Type} [DecidableEq κ]
    (l : List (κ × α)) (k : κ) (v : α) (h : alGet l k = some v) :
    (k, v) ∈ l := by
  induction l with
  | nil => exact absurd h (by simp [alGet])
  | cons p rest ih =>
    rw [alGet_cons] at h
    by_cases hp : p.1 = k
    · rw [if_pos hp] at h
      have : p = (k, v) := by
        cases p
        simp_all
      simp [this]
    · rw [if_neg hp] at h
      exact List.mem_cons_of_mem p (ih h)

theorem alErase_subset {κ α : Type} [DecidableEq κ]
    (l : List (κ × α)) (k : κ) : alErase l k ⊆ l :=
  fun _ hx => List.mem_of_mem_filter hx

/-! ## Claim C10: update of a schema-less type is not atomic -/

/-- C10: when the updated container's type has no declared schema,
`_WriteExistingAttributeContainer` raises the unsupported-container-type
error only after `_CommitWriteCache` has already flushed that type's
write-back buffer: the store it leaves behind is exactly the committed
store (so pending rows of the type are gone from the buffer and appended
to the table), and no UPDATE was issued. -/
theorem write_existing_unsupported (reg : Registry) (s : EngineState)
    (c : Container) (hschema : schemaOf reg c.containerType = [])
    (hcommit : (CommitWriteCache s c.containerType).2 = Option.none) :
    WriteExistingAttributeContainer reg s c =
      ((CommitWriteCache s c.containerType).1,
        some .unsupportedContainerType) ∧
    pendingRowCount (WriteExistingAttributeContainer reg s c).1
        c.containerType = 0 ∧
    tableRowCount (WriteExistingAttributeContainer reg s c).1
        c.containerType =
      tableRowCount s c.containerType + pendingRowCount s c.containerType
    := by
  have hmain : WriteExistingAttributeContainer reg s c =
      ((CommitWriteCache s c.containerType).1,
        some .unsupportedContainerType) := by
    unfold WriteExistingAttributeContainer
    match hc : CommitWriteCache s c.containerType with
    | (s1, some e) => rw [hc] at hcommit; exact absurd hcommit (by simp)
    | (s1, none) => simp [hschema]
  have hstate :
      pendingRowCount (CommitWriteCache s c.containerType).1
        c.containerType = 0 ∧
      tableRowCount (CommitWriteCache s c.containerType).1
          c.containerType =
        tableRowCount s c.containerType +
          pendingRowCount s c.containerType := by
    unfold CommitWriteCache at hcommit ⊢
    match hbuf : alGet s.writeCache c.containerType with
    | Option.none => simp [pendingRowCount, tableRowCount, hbuf]
    | some buf =>
      simp only [hbuf] at hcommit ⊢
      by_cases hrows : 0 < buf.rows.length
      · simp only [if_pos hrows] at hcommit ⊢
        unfold FlushWriteCache at hcommit ⊢
        match htab : alGet s.tables c.containerType with
        | Option.none => simp [htab] at hcommit
        | some rows =>
          simp only [htab] at hcommit ⊢
          constructor
          · simp [pendingRowCount, alGet_alErase_self]
          · simp [tableRowCount, alGet_alSet_self, htab, hbuf,
              pendingRowCount]
      · simp only [if_neg hrows] at hcommit ⊢
        have hz : buf.rows.length = 0 := by omega
        simp [pendingRowCount, tableRowCount, hbuf, hz]
  refine ⟨hmain, ?_, ?_⟩ <;> rw [hmain]
  · exact hstate.1
  · exact hstate.2

/-- Witness for C10: a store holding one pending `"event"` row while the
registry declares no schema for `"event"`: the failing update flushes that
row into the table before raising. -/
theorem write_existing_unsupported_witness :
    WriteExistingAttributeContainer []
        ⟨[("event", [[Value.int 7]])],
          [("event", ⟨["a"], [[Value.int 8]]⟩)], [], [("event", 2)]⟩
        ⟨"event", "event", 1, []⟩ =
      ((CommitWriteCache
          ⟨[("event", [[Value.int 7]])],
            [("event", ⟨["a"], [[Value.int 8]]⟩)], [], [("event", 2)]⟩
          ("event" : String)).1,
        some .unsupportedContainerType) ∧
    pendingRowCount (WriteExistingAttributeContainer []
        ⟨[("event", [[Value.int 7]])],
          [("event", ⟨["a"], [[Value.int 8]]⟩)], [], [("event", 2)]⟩
        ⟨"event", "event", 1, []⟩).1 "event" = 0 ∧
    tableRowCount (WriteExistingAttributeContainer []
        ⟨[("event", [[Value.int 7]])],
          [("event", ⟨["a"], [[Value.int 8]]⟩)], [], [("event", 2)]⟩
        ⟨"event", "event", 1, []⟩).1 "event" =
      tableRowCount
          ⟨[("event", [[Value.int 7]])],
            [("event", ⟨["a"], [[Value.int 8]]⟩)], [], [("event", 2)]⟩
          "event" +
        pendingRowCount
          ⟨[("event", [[Value.int 7]])],
            [("event", ⟨["a"], [[Value.int 8]]⟩)], [], [("event", 2)]⟩
          "event" :=
  write_existing_unsupported []
    ⟨[("event", [[Value.int 7]])],
      [("event", ⟨["a"], [[Value.int 8]]⟩)], [], [("event", 2)]⟩
    ⟨"event", "event", 1, []⟩ (by decide) (by decide)

/-! ### Derived views of the engine state -/

/-- The pending rows of a type's write-back buffer. -/
def bufferRows (s : EngineState) (t : String) : List (List Value) :=
  ((alGet s.writeCache t).map WriteBuf.rows).getD []

/-- The rows a reader observes for a type once the buffer is committed:
table rows first (in rowid order), pending buffered rows behind them. -/
def combinedRows (s : EngineState) (t : String) : List (List Value) :=
  ((alGet s.tables t).getD []) ++ bufferRows s t

/-- The sequence counter of a type (`Counter` default 0). -/
def seqD (s : EngineState) (t : String) : Nat :=
  (alGet s.seqNumbers t).getD 0

/-! ### Serialization lemmas -/

/-- Serializing a well-typed container row succeeds, and reading the row
back yields exactly the container's schema attribute values. -/
theorem serializeRow_wellTyped (schema : List (String × DataType))
    (c : Container)
    (h : ∀ p ∈ schema, ValueWellTyped p.2 (getattrValue c p.1) = true) :
    ∃ row, serializeRow schema c = .ok row ∧
      row.length = schema.length ∧
      readBackRow schema row = schema.map (fun p => getattrValue c p.1) := by
  induction schema with
  | nil => exact ⟨[], rfl, rfl, rfl⟩
  | cons p rest ih =>
    obtain ⟨name, dt⟩ := p
    obtain ⟨w, hw, hdes⟩ :=
      deserialize_serialize dt (getattrValue c name)
        (h (name, dt) (List.mem_cons_self _ _))
    obtain ⟨row, hrow, hlen, hread⟩ :=
      ih (fun q hq => h q (List.mem_cons_of_mem _ hq))
    refine ⟨w :: row, ?_, by simp [hlen], ?_⟩
    · simp only [serializeRow, hw, hrow]
      rfl
    · simp only [readBackRow, List.zip_cons_cons, List.map_cons]
      rw [readBackRow] at hread
      rw [hread, hdes]

/-- Attribute lookup on a container's attribute list (the body of
`getattrValue`). -/
def lookupAttr (attrs : List (String × Value)) (name : String) : Value :=
  match attrs.find? (fun kv => decide (kv.1 = name)) with
  | some kv => kv.2
  | none => .none

theorem getattrValue_eq (c : Container) (name : String) :
    getattrValue c name = lookupAttr c.attrs name := rfl

theorem lookupAttr_cons (a : String × Value) (attrs : List (String × Value))
    (name : String) :
    lookupAttr (a :: attrs) name =
      if a.1 = name then a.2 else lookupAttr attrs name := by
  by_cases h : a.1 = name <;> simp [lookupAttr, List.find?, h]

theorem lookupAttr_not_mem (attrs : List (String × Value)) (name : String)
    (h : name ∉ attrs.map Prod.fst) : lookupAttr attrs name = .none := by
  induction attrs with
  | nil => rfl
  | cons a rest ih =>
    rw [lookupAttr_cons]
    simp only [List.map_cons, List.mem_cons] at h
    push_neg at h
    rw [if_neg (fun e => h.1 e.symm), ih h.2]

/-- The keys of the reconstructed attribute list come from the schema. -/
theorem reconstructAttrs_keys (schema : List (String × DataType))
    (row : List Value) (kv : String × Value)
    (h : kv ∈ (schema.zip row).filterMap (fun pv =>
      if pv.2 = Value.none then Option.none
      else some (pv.1.1, DeserializeValue pv.1.2 pv.2))) :
    kv.1 ∈ schema.map Prod.fst := by
  obtain ⟨pv, hmem, hf⟩ := List.mem_filterMap.mp h
  by_cases hv : pv.2 = Value.none
  · rw [if_pos hv] at hf; cases hf
  · rw [if_neg hv] at hf
    cases hf
    exact List.mem_map.mpr ⟨pv.1, (List.mem_zip hmem).1, rfl⟩

/-- With distinct attribute names, the container reconstructed from a full
row carries exactly the row's deserialized values as its schema attribute
values. -/
theorem schemaValues_reconstruct (container_type : String)
    (schema : List (String × DataType)) (row : List Value)
    (hnodup : (schema.map Prod.fst).Nodup)
    (hlen : row.length = schema.length) :
    schema.map
        (fun p => getattrValue
          (reconstructContainer container_type schema row) p.1) =
      readBackRow schema row := by
  simp only [getattrValue_eq, reconstructContainer]
  induction schema generalizing row with
  | nil => simp [readBackRow]
  | cons p rest ih =>
    match row with
    | [] => simp at hlen
    | v :: vs =>
      have hlen' : vs.length = rest.length := by simpa using hlen
      rw [List.map_cons] at hnodup
      obtain ⟨hp, hnodup'⟩ := List.nodup_cons.mp hnodup
      have htailkeys := fun kv hkv => reconstructAttrs_keys rest vs kv hkv
      have hnotmem : ∀ attrsName, attrsName ∈
          ((rest.zip vs).filterMap (fun pv =>
            if pv.2 = Value.none then Option.none
            else some (pv.1.1, DeserializeValue pv.1.2 pv.2))).map
              Prod.fst → attrsName ∈ rest.map Prod.fst := by
        intro an hm
        obtain ⟨kv, hkv, hfst⟩ := List.mem_map.mp hm
        exact hfst ▸ htailkeys kv hkv
      rw [List.zip_cons_cons]
      by_cases hv : v = Value.none
      · rw [List.filterMap_cons_none (by simp [hv])]
        rw [List.map_cons, readBackRow, List.zip_cons_cons, List.map_cons]
        congr 1
        · rw [lookupAttr_not_mem _ _ (fun hm => hp (hnotmem _ hm)), hv]
          cases p.2 <;> rfl
        · rw [← readBackRow]
          exact ih vs hnodup' hlen'
      · have hsome : (fun pv : (String × DataType) × Value =>
            if pv.2 = Value.none then Option.none
            else some (pv.1.1, DeserializeValue pv.1.2 pv.2)) (p, v) =
            some (p.1, DeserializeValue p.2 v) := by simp [hv]
        rw [@List.filterMap_cons_some ((String × DataType) × Value)
          (String × Value)
          (fun pv => if pv.2 = Value.none then Option.none
            else some (pv.1.1, DeserializeValue pv.1.2 pv.2))
          (p, v) (rest.zip vs) (p.1, DeserializeValue p.2 v) hsome]
        rw [List.map_cons, readBackRow, List.zip_cons_cons, List.map_cons]
        congr 1
        · rw [lookupAttr_cons, if_pos rfl]
        · rw [← readBackRow, ← ih vs hnodup' hlen']
          apply List.map_congr_left
          intro q hq
          have hne : ¬ ((p.1, DeserializeValue p.2 v).1 = q.1) := by
            intro he
            apply hp
            rw [he]
            exact List.mem_map.mpr ⟨q, hq, rfl⟩
          rw [lookupAttr_cons, if_neg hne]

/-- In a well-formed registry, the sorted schema's attribute names are
distinct. -/
theorem sortedSchema_nodup (reg : Registry) (t : String)
    (hreg : RegistryWF reg) :
    ((sortedSchema reg t).map Prod.fst).Nodup := by
  have hperm : List.Perm
      ((schemaOf reg t).insertionSort (fun a b => a.1 ≤ b.1))
      (schemaOf reg t) := (schemaOf reg t).perm_insertionSort _
  have hbase : ((schemaOf reg t).map Prod.fst).Nodup := by
    unfold schemaOf
    match halGet : alGet reg t with
    | Option.none => simp
    | some schema =>
      have hmem := alGet_mem reg t schema halGet
      simpa using hreg (t, schema) hmem
  exact ((hperm.map Prod.fst).nodup_iff).mpr hbase

/-! ### Structural invariant of reachable stores -/

/-- The structural invariant of the engine state: the sequence counter of
a registered type counts its rows (flushed plus pending); a table exists
exactly for registered types that have received a write; a buffered type's
table exists (`_WriteNewAttributeContainer` creates it before buffering);
every stored or pending row has one value per schema column; and the
write-cache holds at most one buffer per type. -/
structure StInv (reg : Registry) (s : EngineState) : Prop where
  seq_count : ∀ t, schemaOf reg t ≠ [] →
    seqD s t = (combinedRows s t).length
  table_iff : ∀ t, (alGet s.tables t).isSome = true ↔
    (0 < seqD s t ∧ schemaOf reg t ≠ [])
  buf_table : ∀ t buf, alGet s.writeCache t = some buf →
    (alGet s.tables t).isSome = true
  row_len : ∀ t, ∀ r ∈ combinedRows s t,
    r.length = (sortedSchema reg t).length
  wc_nodup : (s.writeCache.map Prod.fst).Nodup

/-- The read-cache invariant: every cached entry `(t, i) ↦ c` names a
registered type and a valid 0-based position, and the container's schema
attribute values equal the values read back from the row a (committed)
storage read of rowid `i + 1` returns. -/
def CacheInv (reg : Registry) (s : EngineState) : Prop :=
  ∀ t i c, ((t, i), c) ∈ s.readCache →
    schemaOf reg t ≠ [] ∧ 0 ≤ i ∧
    ∃ row, (combinedRows s t).get? i.toNat = some row ∧
      schemaValues reg t c = readBackRow (sortedSchema reg t) row

/-- Erasing a key keeps the key list duplicate-free. -/
theorem alErase_keys_nodup {κ α : Type} [DecidableEq κ]
    (l : List (κ × α)) (k : κ) (h : (l.map Prod.fst).Nodup) :
    ((alErase l k).map Prod.fst).Nodup :=
  h.sublist (List.Sublist.map Prod.fst (List.filter_sublist l))

/-- No erased-list entry carries the erased key. -/
theorem not_mem_alErase_keys {κ α : Type} [DecidableEq κ]
    (l : List (κ × α)) (k : κ) : k ∉ (alErase l k).map Prod.fst := by
  intro hm
  obtain ⟨kv, hkv, hfst⟩ := List.mem_map.mp hm
  have := List.of_mem_filter hkv
  simp only [Bool.not_eq_true', decide_eq_false_iff_not] at this
  exact this hfst

/-- Updating a key keeps the key list duplicate-free. -/
theorem alSet_keys_nodup {κ α : Type} [DecidableEq κ]
    (l : List (κ × α)) (k : κ) (v : α) (h : (l.map Prod.fst).Nodup) :
    ((alSet l k v).map Prod.fst).Nodup := by
  rw [alSet, List.map_cons]
  exact List.nodup_cons.mpr
    ⟨not_mem_alErase_keys l k, alErase_keys_nodup l k h⟩

/-- What `_CommitWriteCache` does when the buffered type's table exists
(which `StInv.buf_table` guarantees): it succeeds, touches neither the
read cache nor the sequence counters, preserves every type's combined
(flushed plus pending) rows, preserves table existence, leaves the type
without pending rows, and only shrinks the write cache. -/
theorem commit_spec (s : EngineState) (t : String)
    (hbt : ∀ buf, alGet s.writeCache t = some buf →
      (alGet s.tables t).isSome = true) :
    (CommitWriteCache s t).2 = Option.none ∧
    (CommitWriteCache s t).1.readCache = s.readCache ∧
    (CommitWriteCache s t).1.seqNumbers = s.seqNumbers ∧
    (∀ u, combinedRows (CommitWriteCache s t).1 u = combinedRows s u) ∧
    (∀ u, (alGet (CommitWriteCache s t).1.tables u).isSome =
      (alGet s.tables u).isSome) ∧
    bufferRows (CommitWriteCache s t).1 t = [] ∧
    (∀ u buf, alGet (CommitWriteCache s t).1.writeCache u = some buf →
      alGet s.writeCache u = some buf) ∧
    ((s.writeCache.map Prod.fst).Nodup →
      ((CommitWriteCache s t).1.writeCache.map Prod.fst).Nodup) := by
  unfold CommitWriteCache
  match hbuf : alGet s.writeCache t with
  | Option.none =>
    refine ⟨rfl, rfl, rfl, fun u => rfl, fun u => rfl, ?_, fun u buf h => h,
      fun h => h⟩
    simp [bufferRows, hbuf]
  | some buf =>
    by_cases hrows : 0 < buf.rows.length
    · have htab := hbt buf hbuf
      rw [Option.isSome_iff_exists] at htab
      obtain ⟨rows0, htab⟩ := htab
      simp only [if_pos hrows]
      unfold FlushWriteCache
      rw [htab]
      refine ⟨rfl, rfl, rfl, ?_, ?_, ?_, ?_, ?_⟩
      · intro u
        by_cases hu : u = t
        · subst hu
          simp only [combinedRows, bufferRows, alGet_alSet_self,
            alGet_alErase_self, Option.map_none', Option.getD_none,
            Option.getD_some, List.append_nil, htab, hbuf,
            Option.map_some']
        · simp only [combinedRows, bufferRows,
            alGet_alSet_ne _ _ _ _ hu, alGet_alErase_ne _ _ _ hu]
      · intro u
        by_cases hu : u = t
        · subst hu; simp [alGet_alSet_self, htab]
        · simp [alGet_alSet_ne _ _ _ _ hu]
      · simp [bufferRows, alGet_alErase_self]
      · intro u buf' hb
        by_cases hu : u = t
        · subst hu
          rw [alGet_alErase_self] at hb
          cases hb
        · rwa [alGet_alErase_ne _ _ _ hu] at hb
      · exact fun h => alErase_keys_nodup _ _ h
    · dsimp only
      rw [if_neg hrows]
      have hnil : buf.rows = [] := by
        cases hb : buf.rows with
        | nil => rfl
        | cons a l => rw [hb] at hrows; simp at hrows
      refine ⟨rfl, rfl, rfl, fun u => rfl, fun u => rfl, ?_,
        fun u buf' h => h, fun h => h⟩
      simp [bufferRows, hbuf, hnil]

/-- With duplicate-free keys, every entry is the one its key looks up. -/
theorem alGet_of_mem_nodup {κ α : Type} [DecidableEq κ]
    (l : List (κ × α)) (k : κ) (v : α) (hn : (l.map Prod.fst).Nodup)
    (hm : (k, v) ∈ l) : alGet l k = some v := by
  induction l with
  | nil => cases hm
  | cons p rest ih =>
    rw [List.map_cons, List.nodup_cons] at hn
    rw [alGet_cons]
    rcases List.mem_cons.mp hm with he | hm'
    · subst he; rw [if_pos rfl]
    · have hk : p.1 ≠ k := by
        intro e
        exact hn.1 (e ▸ List.mem_map.mpr ⟨(k, v), hm', rfl⟩)
      rw [if_neg hk]
      exact ih hn.2 hm'

/-- The rows a type's write-back buffer holds equal the rows of the
buffer value `_CacheAttributeContainerForWrite` starts from. -/
theorem bufferRows_getD (s : EngineState) (t : String)
    (cols : List String) :
    bufferRows s t = ((alGet s.writeCache t).getD ⟨cols, []⟩).rows := by
  unfold bufferRows
  cases alGet s.writeCache t <;> rfl

/-- What `_CacheAttributeContainerForWrite` does when the type's table
exists: it succeeds, appends exactly the given row to the type's combined
rows, and leaves the read cache, the sequence counters, every other
type's state and table existence unchanged. -/
theorem cfw_spec (s : EngineState) (t : String) (cols : List String)
    (row : List Value) (htab : (alGet s.tables t).isSome = true) :
    (CacheAttributeContainerForWrite s t cols row).2 = Option.none ∧
    (CacheAttributeContainerForWrite s t cols row).1.readCache =
      s.readCache ∧
    (CacheAttributeContainerForWrite s t cols row).1.seqNumbers =
      s.seqNumbers ∧
    combinedRows (CacheAttributeContainerForWrite s t cols row).1 t =
      combinedRows s t ++ [row] ∧
    (∀ u, u ≠ t →
      combinedRows (CacheAttributeContainerForWrite s t cols row).1 u =
        combinedRows s u) ∧
    (∀ u, (alGet (CacheAttributeContainerForWrite s t cols row).1.tables
        u).isSome = (alGet s.tables u).isSome) ∧
    (∀ u buf, u ≠ t →
      alGet (CacheAttributeContainerForWrite s t cols row).1.writeCache u =
        some buf → alGet s.writeCache u = some buf) ∧
    (alGet (CacheAttributeContainerForWrite s t cols row).1.writeCache
      t).isSome = true ∧
    ((s.writeCache.map Prod.fst).Nodup →
      ((CacheAttributeContainerForWrite s t cols row).1.writeCache.map
        Prod.fst).Nodup) := by
  rw [Option.isSome_iff_exists] at htab
  obtain ⟨rows0, htab⟩ := htab
  have hbr := bufferRows_getD s t cols
  unfold CacheAttributeContainerForWrite
  set buf0 := (alGet s.writeCache t).getD ⟨cols, []⟩ with hbuf0
  by_cases hth :
      MAXIMUM_WRITE_CACHE_SIZE ≤ (buf0.rows ++ [row]).length + 1
  · rw [if_pos hth]
    unfold FlushWriteCache
    rw [htab]
    dsimp only
    refine ⟨rfl, rfl, rfl, ?_, ?_, ?_, ?_, ?_, ?_⟩
    · simp only [combinedRows, bufferRows, alGet_alSet_self,
        Option.getD_some, Option.map_some', htab, hbr]
      simp [List.append_assoc]
      exact hbr.symm
    · intro u hu
      simp only [combinedRows, bufferRows, alGet_alSet_ne _ _ _ _ hu]
    · intro u
      by_cases hu : u = t
      · subst hu; simp [alGet_alSet_self, htab]
      · simp [alGet_alSet_ne _ _ _ _ hu]
    · intro u buf hu hb
      rwa [alGet_alSet_ne _ _ _ _ hu] at hb
    · simp [alGet_alSet_self]
    · intro h
      exact alSet_keys_nodup _ _ _ h
  · rw [if_neg hth]
    refine ⟨rfl, rfl, rfl, ?_, ?_, fun u => rfl, ?_, ?_, ?_⟩
    · simp only [combinedRows, bufferRows, alGet_alSet_self,
        Option.getD_some, Option.map_some', hbr]
      simp [List.append_assoc]
      exact hbr.symm
    · intro u hu
      simp only [combinedRows, bufferRows, alGet_alSet_ne _ _ _ _ hu]
    · intro u buf hu hb
      rwa [alGet_alSet_ne _ _ _ _ hu] at hb
    · simp [alGet_alSet_self]
    · intro h
      exact alSet_keys_nodup _ _ _ h

/-- `_CacheAttributeContainerByIndex` touches only the read cache, whose
entries afterwards are the new entry or old entries. -/
theorem cbi_spec (s : EngineState) (c : Container) (i : Int) :
    (CacheAttributeContainerByIndex s c i).tables = s.tables ∧
    (CacheAttributeContainerByIndex s c i).writeCache = s.writeCache ∧
    (CacheAttributeContainerByIndex s c i).seqNumbers = s.seqNumbers ∧
    ∀ e ∈ (CacheAttributeContainerByIndex s c i).readCache,
      e = ((c.containerType, i), c) ∨ e ∈ s.readCache := by
  refine ⟨rfl, rfl, rfl, ?_⟩
  intro e he
  rcases List.mem_cons.mp he with he | he
  · exact Or.inl he
  · right
    have hsub : (if MAXIMUM_CACHED_CONTAINERS ≤ s.readCache.length
        then s.readCache.dropLast else s.readCache) ⊆ s.readCache := by
      split
      · exact List.dropLast_subset _
      · exact fun x hx => hx
    exact hsub (alErase_subset _ _ he)

/-- The loop of `_Flush`: flushing every listed buffer (with
duplicate-free keys, each into its existing table) succeeds, empties the
write cache, appends each type's listed rows to its table and preserves
everything else. -/
theorem flushAllGo_spec (entries : List (String × WriteBuf)) :
    ∀ acc : EngineState,
    (∀ p ∈ entries, 0 < p.2.rows.length →
      (alGet acc.tables p.1).isSome = true) →
    ((entries.map Prod.fst).Nodup) →
    (FlushAllGo entries acc).2 = Option.none ∧
    (FlushAllGo entries acc).1.readCache = acc.readCache ∧
    (FlushAllGo entries acc).1.seqNumbers = acc.seqNumbers ∧
    (FlushAllGo entries acc).1.writeCache = [] ∧
    (∀ u, ((alGet (FlushAllGo entries acc).1.tables u).getD []) =
      ((alGet acc.tables u).getD []) ++
        (((alGet entries u).map WriteBuf.rows).getD [])) ∧
    (∀ u, (alGet (FlushAllGo entries acc).1.tables u).isSome =
      (alGet acc.tables u).isSome) := by
  induction entries with
  | nil =>
    intro acc _ _
    refine ⟨rfl, rfl, rfl, rfl, ?_, fun u => rfl⟩
    intro u
    show (alGet acc.tables u).getD [] =
      (alGet acc.tables u).getD [] ++
        (((alGet ([] : List (String × WriteBuf)) u).map
          WriteBuf.rows).getD [])
    simp [alGet]
  | cons p rest ih =>
    intro acc hacc hnodup
    obtain ⟨t, buf⟩ := p
    rw [List.map_cons, List.nodup_cons] at hnodup
    have htnotin : ∀ v, (t, v) ∈ rest → False := by
      intro v hv
      exact hnodup.1 (List.mem_map.mpr ⟨(t, v), hv, rfl⟩)
    unfold FlushAllGo
    by_cases hrows : 0 < buf.rows.length
    · rw [if_pos hrows]
      have htab := hacc (t, buf) (List.mem_cons_self _ _) hrows
      rw [Option.isSome_iff_exists] at htab
      obtain ⟨rows0, htab⟩ := htab
      unfold FlushWriteCache
      rw [htab]
      dsimp only
      set acc' : EngineState :=
        { acc with tables := alSet acc.tables t (rows0 ++ buf.rows) }
        with hacc'
      have hih := ih acc' (by
        intro q hq hqrows
        by_cases hu : q.1 = t
        · show (alGet (alSet acc.tables t (rows0 ++ buf.rows))
            q.1).isSome = true
          rw [hu, alGet_alSet_self]
          rfl
        · show (alGet (alSet acc.tables t (rows0 ++ buf.rows))
            q.1).isSome = true
          rw [alGet_alSet_ne _ _ _ _ hu]
          exact hacc q (List.mem_cons_of_mem _ hq) hqrows) hnodup.2
      refine ⟨hih.1, hih.2.1, hih.2.2.1, hih.2.2.2.1, ?_, ?_⟩
      · intro u
        rw [hih.2.2.2.2.1 u]
        by_cases hu : u = t
        · subst hu
          have hrest : alGet rest u = Option.none := by
            cases hr : alGet rest u with
            | none => rfl
            | some v => exact absurd (alGet_mem rest u v hr) (htnotin v)
          show _ ++ _ = _ ++ (((alGet ((u, buf) :: rest) u).map
            WriteBuf.rows).getD [])
          rw [alGet_cons, if_pos rfl]
          show (alGet (alSet acc.tables u (rows0 ++ buf.rows)) u).getD []
              ++ _ = _
          rw [alGet_alSet_self, hrest, htab]
          simp
        · show _ ++ _ = _ ++ (((alGet ((t, buf) :: rest) u).map
            WriteBuf.rows).getD [])
          rw [alGet_cons, if_neg (fun e => hu e.symm)]
          show (alGet (alSet acc.tables t (rows0 ++ buf.rows)) u).getD []
              ++ _ = _
          rw [alGet_alSet_ne _ _ _ _ hu]
      · intro u
        rw [hih.2.2.2.2.2 u]
        by_cases hu : u = t
        · subst hu
          show (alGet (alSet acc.tables u (rows0 ++ buf.rows)) u).isSome
            = _
          rw [alGet_alSet_self, htab]
          rfl
        · show (alGet (alSet acc.tables t (rows0 ++ buf.rows)) u).isSome
            = _
          rw [alGet_alSet_ne _ _ _ _ hu]
    · rw [if_neg hrows]
      have hnil : buf.rows = [] := by
        cases hb : buf.rows with
        | nil => rfl
        | cons a l => rw [hb] at hrows; simp at hrows
      have hih := ih acc
        (fun q hq hqrows => hacc q (List.mem_cons_of_mem _ hq) hqrows)
        hnodup.2
      refine ⟨hih.1, hih.2.1, hih.2.2.1, hih.2.2.2.1, ?_,
        hih.2.2.2.2.2⟩
      intro u
      rw [hih.2.2.2.2.1 u]
      by_cases hu : u = t
      · subst hu
        have hrest : alGet rest u = Option.none := by
          cases hr : alGet rest u with
          | none => rfl
          | some v => exact absurd (alGet_mem rest u v hr) (htnotin v)
        rw [hrest, alGet_cons, if_pos rfl]
        simp [hnil]
      · rw [alGet_cons, if_neg (fun e => hu e.symm)]

/-- Changing only the identifier fields leaves attribute lookups alone. -/
theorem getattrValue_setIdent (c : Container) (a : String) (b : Int)
    (name : String) :
    getattrValue { c with identName := a, identSeq := b } name =
      getattrValue c name := rfl

/-- A well-typed new write preserves both invariants: it appends one row
for its type (creating the table on a first write), bumps the sequence
counter, and caches the written container at its new index, which reads
back to the same schema attribute values. -/
theorem inv_writeNew (reg : Registry) (s : EngineState) (c : Container)
    (hreg : RegistryWF reg) (hst : StInv reg s) (hci : CacheInv reg s)
    (hwt : ContainerWellTyped reg c) :
    StInv reg (WriteNewAttributeContainer reg s c).1 ∧
    CacheInv reg (WriteNewAttributeContainer reg s c).1 := by
  obtain ⟨hseq_count, htable_iff, hbuf_table, hrow_len, hwc_nodup⟩ := hst
  set t := c.containerType with ht
  set n0 := seqD s t with hn0
  set sA : EngineState :=
    { s with seqNumbers := alSet s.seqNumbers t (n0 + 1) } with hsA
  have hA_seq_t : seqD sA t = n0 + 1 := by
    simp [seqD, hsA, alGet_alSet_self]
  have hA_seq_ne : ∀ u, u ≠ t → seqD sA u = seqD s u := by
    intro u hu
    simp [seqD, hsA, alGet_alSet_ne _ _ _ _ hu]
  by_cases hschema : schemaOf reg t = []
  · -- unsupported type: only the sequence counter was bumped
    have hres : (WriteNewAttributeContainer reg s c).1 = sA := by
      unfold WriteNewAttributeContainer
      rw [show GetAttributeContainerNextSequenceNumber s c.containerType =
        (n0 + 1, sA) from rfl]
      dsimp only
      by_cases hcond : (n0 + 1 = 1 ∧ ¬ HasTable sA c.containerType)
      · rw [if_pos hcond]
        unfold CreateAttributeContainerTable
        rw [if_pos hschema]
      · rw [if_neg hcond]
        dsimp only
        rw [if_pos hschema]
    rw [hres]
    constructor
    · refine ⟨?_, ?_, hbuf_table, hrow_len, hwc_nodup⟩
      · intro u hu
        by_cases hut : u = t
        · subst hut; exact absurd hschema hu
        · rw [hA_seq_ne u hut]; exact hseq_count u hu
      · intro u
        by_cases hut : u = t
        · subst hut
          rw [hA_seq_t]
          constructor
          · intro hsome
            exact absurd ((htable_iff t).mp hsome).2 (fun h => h hschema)
          · intro hr
            exact absurd hschema hr.2
        · rw [hA_seq_ne u hut]; exact htable_iff u
    · intro u i cc hm
      exact hci u i cc hm
  · -- registered type: one row is appended and the container cached
    have hwt' : ∀ p ∈ sortedSchema reg t,
        ValueWellTyped p.2 (getattrValue
          { c with identName := t, identSeq := ((n0 + 1 : Nat) : Int) }
          p.1) = true := by
      intro p hp
      rw [getattrValue_setIdent]
      exact hwt p hp
    obtain ⟨row, hser, hrlen, hread⟩ :=
      serializeRow_wellTyped (sortedSchema reg t)
        { c with identName := t, identSeq := ((n0 + 1 : Nat) : Int) } hwt'
    -- the state after the table-creation step
    have hA_buf : ∀ u buf, alGet sA.writeCache u = some buf →
        alGet s.writeCache u = some buf := fun u buf h => h
    obtain ⟨s1, hs1_eq, hs1_tab, hs1_comb, hs1_tabs_ne, hs1_wc, hs1_rc,
        hs1_seq⟩ :
        ∃ s1 : EngineState,
          (if n0 + 1 = 1 ∧ ¬ HasTable sA c.containerType
           then CreateAttributeContainerTable reg sA c.containerType
           else (sA, Option.none)) = (s1, Option.none) ∧
          (alGet s1.tables t).isSome = true ∧
          (∀ u, combinedRows s1 u = combinedRows s u) ∧
          (∀ u, u ≠ t → alGet s1.tables u = alGet s.tables u) ∧
          s1.writeCache = s.writeCache ∧
          s1.readCache = s.readCache ∧
          s1.seqNumbers = sA.seqNumbers := by
      by_cases hcond : (n0 + 1 = 1 ∧ ¬ HasTable sA c.containerType)
      · refine ⟨{ sA with tables := alSet sA.tables t [] }, ?_, ?_, ?_,
          ?_, rfl, rfl, rfl⟩
        · rw [if_pos hcond]
          unfold CreateAttributeContainerTable
          rw [if_neg hschema]
        · simp [alGet_alSet_self]
        · intro u
          by_cases hut : u = t
          · subst hut
            have htabs : alGet s.tables t = Option.none := by
              have h2 := hcond.2
              unfold HasTable at h2
              exact Option.not_isSome_iff_eq_none.mp (by simpa using h2)
            have hbuf : alGet s.writeCache t = Option.none := by
              cases hb : alGet s.writeCache t with
              | none => rfl
              | some buf =>
                have h3 := hbuf_table t buf hb
                rw [htabs] at h3
                cases h3
            simp [combinedRows, bufferRows, alGet_alSet_self, htabs,
              hbuf]
          · simp [combinedRows, bufferRows,
              alGet_alSet_ne _ _ _ _ hut]
        · intro u hut
          simp [alGet_alSet_ne _ _ _ _ hut]
      · refine ⟨sA, by rw [if_neg hcond], ?_, fun u => rfl, fun u _ => rfl,
          rfl, rfl, rfl⟩
        show (alGet s.tables t).isSome = true
        rcases Decidable.not_and_iff_or_not.mp hcond with h1 | h2
        · have hn0pos : 0 < n0 := by omega
          exact (htable_iff t).mpr ⟨hn0pos, hschema⟩
        · have := Decidable.not_not.mp h2
          exact this
    -- the buffer append and the cache insertion
    obtain ⟨hcfw_err, hcfw_rc, hcfw_seq, hcfw_comb_t, hcfw_comb_ne,
        hcfw_tabs, hcfw_wc_ne, hcfw_wc_t, hcfw_nodup⟩ :=
      cfw_spec s1 t ((sortedSchema reg t).map Prod.fst) row hs1_tab
    set s2 : EngineState := (CacheAttributeContainerForWrite s1 t
      ((sortedSchema reg t).map Prod.fst) row).1 with hs2
    set cI : Container :=
      { c with identName := t, identSeq := ((n0 + 1 : Nat) : Int) }
      with hcI
    set i0 : Int := ((n0 + 1 : Nat) : Int) - 1 with hi0
    have hres : (WriteNewAttributeContainer reg s c).1 =
        CacheAttributeContainerByIndex s2 cI i0 := by
      unfold WriteNewAttributeContainer
      rw [show GetAttributeContainerNextSequenceNumber s c.containerType =
        (n0 + 1, sA) from rfl]
      dsimp only
      rw [hs1_eq]
      dsimp only
      rw [if_neg hschema, hser]
      dsimp only
      have hpair : CacheAttributeContainerForWrite s1 t
          ((sortedSchema reg t).map Prod.fst) row = (s2, Option.none) := by
        rw [hs2]
        rw [show (CacheAttributeContainerForWrite s1 t
          ((sortedSchema reg t).map Prod.fst) row) =
          ((CacheAttributeContainerForWrite s1 t
            ((sortedSchema reg t).map Prod.fst) row).1,
           (CacheAttributeContainerForWrite s1 t
            ((sortedSchema reg t).map Prod.fst) row).2) from rfl,
          hcfw_err]
      rw [hpair]
    obtain ⟨hcbi_tabs, hcbi_wc, hcbi_seq, hcbi_mem⟩ := cbi_spec s2 cI i0
    set s3 : EngineState := CacheAttributeContainerByIndex s2 cI i0
      with hs3
    have hs3_comb : ∀ u, combinedRows s3 u = combinedRows s2 u := by
      intro u
      unfold combinedRows bufferRows
      rw [hcbi_tabs, hcbi_wc]
    have hs3_seqD : ∀ u, seqD s3 u = seqD s2 u := by
      intro u
      unfold seqD
      rw [hcbi_seq]
    have hs2_seqD_t : seqD s2 t = n0 + 1 := by
      unfold seqD
      rw [hcfw_seq, hs1_seq]
      exact hA_seq_t
    have hs2_seqD_ne : ∀ u, u ≠ t → seqD s2 u = seqD s u := by
      intro u hu
      unfold seqD
      rw [hcfw_seq, hs1_seq]
      exact hA_seq_ne u hu
    have hs2_comb_t : combinedRows s2 t = combinedRows s t ++ [row] := by
      rw [hcfw_comb_t, hs1_comb t]
    have hs2_comb_ne : ∀ u, u ≠ t → combinedRows s2 u = combinedRows s u :=
      fun u hu => (hcfw_comb_ne u hu).trans (hs1_comb u)
    have hs2_tab_t : (alGet s2.tables t).isSome = true := by
      rw [hcfw_tabs t]
      exact hs1_tab
    have hs2_tabs_ne : ∀ u, u ≠ t →
        (alGet s2.tables u).isSome = (alGet s.tables u).isSome := by
      intro u hu
      rw [hcfw_tabs u, hs1_tabs_ne u hu]
    rw [hres]
    show StInv reg s3 ∧ CacheInv reg s3
    constructor
    · refine ⟨?_, ?_, ?_, ?_, ?_⟩
      · intro u hu
        rw [hs3_seqD u, hs3_comb u]
        by_cases hut : u = t
        · subst hut
          rw [hs2_seqD_t, hs2_comb_t, List.length_append,
            List.length_singleton, ← hseq_count t hu]
        · rw [hs2_seqD_ne u hut, hs2_comb_ne u hut]
          exact hseq_count u hu
      · intro u
        have : alGet s3.tables u = alGet s2.tables u := by rw [hcbi_tabs]
        rw [show (alGet s3.tables u).isSome = (alGet s2.tables u).isSome
          from by rw [this], hs3_seqD u]
        by_cases hut : u = t
        · subst hut
          rw [hs2_seqD_t]
          simp only [hs2_tab_t, true_iff]
          exact ⟨by omega, hschema⟩
        · rw [hs2_tabs_ne u hut, hs2_seqD_ne u hut]
          exact htable_iff u
      · intro u buf hb
        have hb2 : alGet s2.writeCache u = some buf := by
          rw [← hcbi_wc]; exact hb
        have : alGet s3.tables u = alGet s2.tables u := by rw [hcbi_tabs]
        rw [show (alGet s3.tables u).isSome = (alGet s2.tables u).isSome
          from by rw [this]]
        by_cases hut : u = t
        · subst hut; exact hs2_tab_t
        · rw [hs2_tabs_ne u hut]
          have := hcfw_wc_ne u buf hut hb2
          rw [hs1_wc] at this
          exact hbuf_table u buf this
      · intro u r hr
        rw [hs3_comb u] at hr
        by_cases hut : u = t
        · subst hut
          rw [hs2_comb_t] at hr
          rcases List.mem_append.mp hr with hr | hr
          · exact hrow_len t r hr
          · rw [List.mem_singleton.mp hr]
            exact hrlen
        · rw [hs2_comb_ne u hut] at hr
          exact hrow_len u r hr
      · have h2 : (s2.writeCache.map Prod.fst).Nodup := by
          apply hcfw_nodup
          rw [hs1_wc]
          exact hwc_nodup
        rw [show s3.writeCache = s2.writeCache from hcbi_wc]
        exact h2
    · intro u j cc hm
      have hm3 := hcbi_mem ((u, j), cc) hm
      rcases hm3 with he | hold
      · -- the freshly cached container
        have hu : u = t := congrArg (fun e => e.1.1) he
        have hj : j = i0 := congrArg (fun e => e.1.2) he
        have hcc : cc = cI := congrArg Prod.snd he
        refine ⟨by rw [hu]; exact hschema, by rw [hj, hi0]; omega, ?_⟩
        refine ⟨row, ?_, ?_⟩
        · rw [hu, hj, hs3_comb t, hs2_comb_t]
          have hlen2 : (combinedRows s t).length = n0 :=
            (hseq_count t hschema).symm
          have htn : i0.toNat = (combinedRows s t).length := by
            rw [hlen2, hi0]; omega
          rw [htn]
          exact List.get?_concat_length _ _
        · rw [hu, hcc]
          show schemaValues reg t cI = _
          unfold schemaValues
          rw [← hread]
      · -- an entry that was already cached
        have hold' : ((u, j), cc) ∈ s.readCache := by
          rw [← hs1_rc, ← hcfw_rc]
          exact hold
        obtain ⟨hu_schema, hj_nonneg, rowj, hrowj, hvals⟩ :=
          hci u j cc hold'
        refine ⟨hu_schema, hj_nonneg, rowj, ?_, hvals⟩
        rw [hs3_comb u]
        by_cases hut : u = t
        · rw [hut, hs2_comb_t]
          rw [hut] at hrowj
          have hlt : j.toNat < (combinedRows s t).length := by
            obtain ⟨hh, -⟩ := List.get?_eq_some.mp hrowj
            exact hh
          rw [List.get?_append hlt]
          exact hrowj
        · rw [hs2_comb_ne u hut]
          exact hrowj

/-- Committing one type's write buffer preserves both invariants. -/
theorem inv_commit (reg : Registry) (s : EngineState) (t : String)
    (hst : StInv reg s) (hci : CacheInv reg s) :
    StInv reg (CommitWriteCache s t).1 ∧
    CacheInv reg (CommitWriteCache s t).1 := by
  obtain ⟨-, hrc, hseq, hcomb, htabs, -, hwc, hnodup⟩ :=
    commit_spec s t (fun buf hb => hst.buf_table t buf hb)
  constructor
  · refine ⟨?_, ?_, ?_, ?_, hnodup hst.wc_nodup⟩
    · intro u hu
      show (alGet (CommitWriteCache s t).1.seqNumbers u).getD 0 = _
      rw [hseq, hcomb u]
      exact hst.seq_count u hu
    · intro u
      rw [htabs u]
      show _ ↔ 0 < (alGet (CommitWriteCache s t).1.seqNumbers u).getD 0 ∧ _
      rw [hseq]
      exact hst.table_iff u
    · intro u buf hb
      rw [htabs u]
      exact hst.buf_table u buf (hwc u buf hb)
    · intro u r hr
      rw [hcomb u] at hr
      exact hst.row_len u r hr
  · intro u j cc hm
    rw [hrc] at hm
    obtain ⟨ha, hb, rowj, hrj, hv⟩ := hci u j cc hm
    exact ⟨ha, hb, rowj, by rw [hcomb u]; exact hrj, hv⟩

/-- Counting a type leaves behind exactly the committed state. -/
theorem getNumber_state_eq (s : EngineState) (t : String) :
    (GetNumberOfAttributeContainers s t).1.2 = (CommitWriteCache s t).1
    := by
  unfold GetNumberOfAttributeContainers
  match hc : CommitWriteCache s t with
  | (s1, some e) => rfl
  | (s1, Option.none) =>
    dsimp only
    cases alGet s1.tables t <;> rfl

/-- Counting a type preserves both invariants. -/
theorem inv_getNumber (reg : Registry) (s : EngineState) (t : String)
    (hst : StInv reg s) (hci : CacheInv reg s) :
    StInv reg (GetNumberOfAttributeContainers s t).1.2 ∧
    CacheInv reg (GetNumberOfAttributeContainers s t).1.2 := by
  rw [getNumber_state_eq]
  exact inv_commit reg s t hst hci

/-- A full flush (`_Flush`) preserves both invariants. -/
theorem inv_flush (reg : Registry) (s : EngineState)
    (hst : StInv reg s) (hci : CacheInv reg s) :
    StInv reg (Flush s).1 ∧ CacheInv reg (Flush s).1 := by
  obtain ⟨-, hrc, hseq, hwc, htabs, hsome⟩ :=
    flushAllGo_spec s.writeCache s
      (fun p hp hrows => hst.buf_table p.1 p.2
        (alGet_of_mem_nodup s.writeCache p.1 p.2 hst.wc_nodup
          (by cases p; exact hp)))
      hst.wc_nodup
  have hcomb : ∀ u, combinedRows (Flush s).1 u = combinedRows s u := by
    intro u
    unfold combinedRows bufferRows
    show (alGet (FlushAllGo s.writeCache s).1.tables u).getD [] ++ _ = _
    rw [htabs u]
    show _ ++ ((alGet (FlushAllGo s.writeCache s).1.writeCache u).map
      WriteBuf.rows).getD [] = _
    rw [hwc]
    simp [alGet]
  constructor
  · refine ⟨?_, ?_, ?_, ?_, ?_⟩
    · intro u hu
      show (alGet (Flush s).1.seqNumbers u).getD 0 = _
      rw [show (Flush s).1.seqNumbers = s.seqNumbers from hseq, hcomb u]
      exact hst.seq_count u hu
    · intro u
      rw [show (alGet (Flush s).1.tables u).isSome =
        (alGet s.tables u).isSome from hsome u]
      show _ ↔ 0 < (alGet (Flush s).1.seqNumbers u).getD 0 ∧ _
      rw [show (Flush s).1.seqNumbers = s.seqNumbers from hseq]
      exact hst.table_iff u
    · intro u buf hb
      rw [show (Flush s).1.writeCache = [] from hwc] at hb
      exact absurd hb (by simp [alGet])
    · intro u r hr
      rw [hcomb u] at hr
      exact hst.row_len u r hr
    · rw [show (Flush s).1.writeCache = [] from hwc]
      exact List.nodup_nil
  · intro u j cc hm
    rw [show (Flush s).1.readCache = s.readCache from hrc] at hm
    obtain ⟨ha, hb, rowj, hrj, hv⟩ := hci u j cc hm
    exact ⟨ha, hb, rowj, by rw [hcomb u]; exact hrj, hv⟩

/-- Unpacking a successful positional row select. -/
theorem rowAt_eq_some (rows : List (List Value)) (k : Int)
    (row : List Value) (h : rowAt rows k = some row) :
    1 ≤ k ∧ rows.get? (k - 1).toNat = some row := by
  unfold rowAt at h
  by_cases hk : 1 ≤ k
  · rw [if_pos hk] at h
    exact ⟨hk, h⟩
  · rw [if_neg hk] at h
    cases h

/-- The structural invariant does not mention the read cache. -/
theorem stinv_readCache (reg : Registry) (s : EngineState)
    (rc : List ((String × Int) × Container)) (hst : StInv reg s) :
    StInv reg { s with readCache := rc } :=
  ⟨hst.seq_count, hst.table_iff, hst.buf_table, hst.row_len,
    hst.wc_nodup⟩

/-- A read by index preserves both invariants: a hit only reorders the
cache; a miss commits the buffer and caches the reconstructed container,
whose schema values are by construction those read back from its row. -/
theorem inv_getByIndex (reg : Registry) (s : EngineState) (t : String)
    (i : Int) (hreg : RegistryWF reg) (hst : StInv reg s)
    (hci : CacheInv reg s) :
    StInv reg (GetAttributeContainerByIndex reg s t i).1.2 ∧
    CacheInv reg (GetAttributeContainerByIndex reg s t i).1.2 := by
  unfold GetAttributeContainerByIndex GetCachedAttributeContainer
  match halg : alGet s.readCache (t, i) with
  | some c0 =>
    dsimp only
    constructor
    · exact stinv_readCache reg s _ hst
    · intro u j cc hm
      rcases List.mem_cons.mp hm with he | hm'
      · have hkey : ((u, j), cc) ∈ s.readCache := by
          rw [he]
          exact alGet_mem s.readCache (t, i) c0 halg
        exact hci u j cc hkey
      · exact hci u j cc (alErase_subset _ _ hm')
  | Option.none =>
    dsimp only
    obtain ⟨hinv1, hinv2⟩ := inv_commit reg s t hst hci
    obtain ⟨-, hcrc, -, hccomb, -, hcbuf, -, -⟩ :=
      commit_spec s t (fun buf hb => hst.buf_table t buf hb)
    match hc : CommitWriteCache s t with
    | (s1, some e) =>
      dsimp only
      rw [hc] at hinv1 hinv2
      exact ⟨hinv1, hinv2⟩
    | (s1, Option.none) =>
      dsimp only
      rw [hc] at hinv1 hinv2 hcrc hccomb hcbuf
      by_cases hseq0 : (alGet s1.seqNumbers t).getD 0 = 0
      · rw [if_pos hseq0]
        exact ⟨hinv1, hinv2⟩
      · rw [if_neg hseq0]
        by_cases hsch : schemaOf reg t = []
        · rw [if_pos hsch]
          exact ⟨hinv1, hinv2⟩
        · rw [if_neg hsch]
          match htab : alGet s1.tables t with
          | Option.none => exact ⟨hinv1, hinv2⟩
          | some rows =>
            dsimp only
            match hrow : rowAt rows (i + 1) with
            | Option.none => exact ⟨hinv1, hinv2⟩
            | some row =>
              dsimp only
              obtain ⟨hipos, hget⟩ := rowAt_eq_some rows (i + 1) row hrow
              have hi0 : 0 ≤ i := by omega
              have hgeti : rows.get? i.toNat = some row := by
                rw [show (i + 1 - 1 : Int) = i from by omega] at hget
                exact hget
              have hcomb1 : combinedRows s1 t = rows := by
                unfold combinedRows
                rw [htab, hcbuf]
                simp
              have hrowmem : row ∈ combinedRows s1 t := by
                rw [hcomb1]
                exact List.get?_mem hgeti
              have hrlen : row.length = (sortedSchema reg t).length :=
                hinv1.row_len t row hrowmem
              set cR : Container :=
                { containerType := (reconstructContainer t
                    (sortedSchema reg t) row).containerType,
                  identName := t, identSeq := i + 1,
                  attrs := (reconstructContainer t
                    (sortedSchema reg t) row).attrs } with hcR
              obtain ⟨hcbi_tabs, hcbi_wc, hcbi_seq, hcbi_mem⟩ :=
                cbi_spec s1 cR i
              have hcomb3 : ∀ u,
                  combinedRows (CacheAttributeContainerByIndex s1 cR i) u
                    = combinedRows s1 u := by
                intro u
                unfold combinedRows bufferRows
                rw [hcbi_tabs, hcbi_wc]
              constructor
              · exact ⟨fun u hu => by
                    rw [show seqD (CacheAttributeContainerByIndex s1 cR
                      i) u = seqD s1 u from by
                        unfold seqD; rw [hcbi_seq], hcomb3 u]
                    exact hinv1.seq_count u hu,
                  fun u => by
                    rw [show (alGet (CacheAttributeContainerByIndex s1
                      cR i).tables u).isSome =
                      (alGet s1.tables u).isSome from by rw [hcbi_tabs],
                      show seqD (CacheAttributeContainerByIndex s1 cR
                        i) u = seqD s1 u from by
                        unfold seqD; rw [hcbi_seq]]
                    exact hinv1.table_iff u,
                  fun u buf hb => by
                    rw [show (alGet (CacheAttributeContainerByIndex s1
                      cR i).tables u).isSome =
                      (alGet s1.tables u).isSome from by rw [hcbi_tabs]]
                    rw [hcbi_wc] at hb
                    exact hinv1.buf_table u buf hb,
                  fun u r hr => by
                    rw [hcomb3 u] at hr
                    exact hinv1.row_len u r hr,
                  by rw [hcbi_wc]; exact hinv1.wc_nodup⟩
              · intro u j cc hm
                rcases hcbi_mem ((u, j), cc) hm with he | hold
                · have hu : u = t := congrArg (fun e => e.1.1) he
                  have hj : j = i := congrArg (fun e => e.1.2) he
                  have hcc : cc = cR := congrArg Prod.snd he
                  refine ⟨by rw [hu]; exact hsch, by rw [hj]; exact hi0,
                    row, ?_, ?_⟩
                  · rw [hu, hj, hcomb3 t, hcomb1]
                    exact hgeti
                  · rw [hu, hcc]
                    show schemaValues reg t cR = _
                    unfold schemaValues
                    have : ∀ p : String × DataType,
                        getattrValue cR p.1 = getattrValue
                          (reconstructContainer t (sortedSchema reg t)
                            row) p.1 := fun p => rfl
                    calc (sortedSchema reg t).map
                          (fun p => getattrValue cR p.1)
                        = (sortedSchema reg t).map (fun p => getattrValue
                            (reconstructContainer t
                              (sortedSchema reg t) row) p.1) := by
                          exact List.map_congr_left (fun p _ => this p)
                      _ = readBackRow (sortedSchema reg t) row :=
                          schemaValues_reconstruct t (sortedSchema reg t)
                            row (sortedSchema_nodup reg t hreg) hrlen
                · obtain ⟨ha, hb, rowj, hrj, hv⟩ := hinv2 u j cc hold
                  exact ⟨ha, hb, rowj, by rw [hcomb3 u]; exact hrj, hv⟩

/-- A well-typed update whose written values agree with any cached entry
for the updated row preserves both invariants.  (Without the agreement
hypothesis the update leaves a stale cached entry behind — the
counterexample to claim C1 as stated.) -/
theorem inv_writeExisting (reg : Registry) (s : EngineState)
    (c : Container) (hst : StInv reg s) (hci : CacheInv reg s)
    (hwt : ContainerWellTyped reg c)
    (hmc : ∀ c', ((c.containerType, c.identSeq - 1), c') ∈ s.readCache →
      schemaValues reg c.containerType c' =
        schemaValues reg c.containerType c) :
    StInv reg (WriteExistingAttributeContainer reg s c).1 ∧
    CacheInv reg (WriteExistingAttributeContainer reg s c).1 := by
  set t := c.containerType with ht
  obtain ⟨hinv1, hinv2⟩ := inv_commit reg s t hst hci
  obtain ⟨-, hcrc, -, hccomb, -, hcbuf, -, -⟩ :=
    commit_spec s t (fun buf hb => hst.buf_table t buf hb)
  unfold WriteExistingAttributeContainer
  match hc : CommitWriteCache s t with
  | (s1, some e) =>
    dsimp only
    rw [hc] at hinv1 hinv2
    exact ⟨hinv1, hinv2⟩
  | (s1, Option.none) =>
    dsimp only
    rw [hc] at hinv1 hinv2 hcrc hccomb hcbuf
    by_cases hsch : schemaOf reg t = []
    · rw [if_pos hsch]
      exact ⟨hinv1, hinv2⟩
    · rw [if_neg hsch]
      obtain ⟨row, hser, hrlen, hread⟩ :=
        serializeRow_wellTyped (sortedSchema reg t) c hwt
      rw [hser]
      dsimp only
      match htab : alGet s1.tables t with
      | Option.none => exact ⟨hinv1, hinv2⟩
      | some rows =>
        dsimp only
        by_cases hrange : 1 ≤ c.identSeq ∧ c.identSeq ≤ rows.length
        · rw [if_pos hrange]
          set k : Nat := (c.identSeq - 1).toNat with hk
          set s2 : EngineState := { s1 with tables :=
            (alSet s1.tables t (rows.set k row)) } with hs2
          have hcomb1 : combinedRows s1 t = rows := by
            unfold combinedRows
            rw [htab, hcbuf]
            simp
          have hbuf2 : bufferRows s2 t = [] := hcbuf
          have hcomb2_t : combinedRows s2 t = rows.set k row := by
            unfold combinedRows
            show (alGet (alSet s1.tables t (rows.set k row)) t).getD []
              ++ bufferRows s2 t = _
            rw [alGet_alSet_self, hbuf2]
            simp
          have hcomb2_ne : ∀ u, u ≠ t →
              combinedRows s2 u = combinedRows s1 u := by
            intro u hu
            unfold combinedRows
            show (alGet (alSet s1.tables t (rows.set k row)) u).getD []
              ++ bufferRows s2 u = _
            rw [alGet_alSet_ne _ _ _ _ hu]
            rfl
          have hlen2 : (rows.set k row).length = rows.length :=
            List.length_set rows k row
          constructor
          · refine ⟨?_, ?_, ?_, ?_, hinv1.wc_nodup⟩
            · intro u hu
              show seqD s1 u = _
              by_cases hut : u = t
              · rw [hut, hcomb2_t, hlen2, ← hcomb1]
                exact hinv1.seq_count t (by rw [← hut]; exact hu)
              · rw [hcomb2_ne u hut]
                exact hinv1.seq_count u hu
            · intro u
              show (alGet s2.tables u).isSome = true ↔ 0 < seqD s1 u ∧ _
              by_cases hut : u = t
              · rw [hut]
                show (alGet (alSet s1.tables t (rows.set k row))
                  t).isSome = true ↔ _
                rw [alGet_alSet_self]
                simp only [Option.isSome_some, true_iff]
                have := (hinv1.table_iff t).mp (by rw [htab]; rfl)
                exact this
              · show (alGet (alSet s1.tables t (rows.set k row))
                  u).isSome = true ↔ _
                rw [alGet_alSet_ne _ _ _ _ hut]
                exact hinv1.table_iff u
            · intro u buf hb
              have hb1 : alGet s1.writeCache u = some buf := hb
              by_cases hut : u = t
              · rw [hut]
                show (alGet (alSet s1.tables t (rows.set k row))
                  t).isSome = true
                rw [alGet_alSet_self]
                rfl
              · show (alGet (alSet s1.tables t (rows.set k row))
                  u).isSome = true
                rw [alGet_alSet_ne _ _ _ _ hut]
                exact hinv1.buf_table u buf hb1
            · intro u r hr
              by_cases hut : u = t
              · rw [hut] at hr ⊢
                rw [hcomb2_t] at hr
                rcases List.mem_or_eq_of_mem_set hr with hr | hr
                · exact hinv1.row_len t r (by rw [hcomb1]; exact hr)
                · rw [hr]
                  exact hrlen
              · rw [hcomb2_ne u hut] at hr
                exact hinv1.row_len u r hr
          · intro u j cc hm
            have hm1 : ((u, j), cc) ∈ s1.readCache := hm
            obtain ⟨ha, hb, rowj, hrj, hv⟩ := hinv2 u j cc hm1
            refine ⟨ha, hb, ?_⟩
            by_cases hut : u = t
            · subst hut
              rw [hcomb1] at hrj
              by_cases hjk : j.toNat = k
              · refine ⟨row, ?_, ?_⟩
                · rw [hcomb2_t, ← hjk]
                  have hjlt : j.toNat < rows.length := by
                    obtain ⟨hh, -⟩ := List.get?_eq_some.mp hrj
                    exact hh
                  rw [List.get?_eq_getElem?, hjk]
                  rw [List.getElem?_set_self (by omega)]
                · have hjeq : j = c.identSeq - 1 := by
                    rw [hk] at hjk
                    omega
                  have hmem0 : ((t, j), cc) ∈ s.readCache := by
                    rw [← hcrc]; exact hm1
                  have hvc := hmc cc (by rw [← hjeq]; exact hmem0)
                  rw [hvc]
                  show schemaValues reg t c = _
                  unfold schemaValues
                  rw [← hread]
              · refine ⟨rowj, ?_, hv⟩
                rw [hcomb2_t, List.get?_eq_getElem?,
                  List.getElem?_set_ne (fun e => hjk e.symm),
                  ← List.get?_eq_getElem?]
                exact hrj
            · refine ⟨rowj, ?_, hv⟩
              rw [hcomb2_ne u hut]
              exact hrj
        · rw [if_neg hrange]
          exact ⟨hinv1, hinv2⟩

/-- The agreement restriction on updates under which the read cache stays
consistent: when the updated row's container is cached, the update writes
the same schema attribute values as the cached entry — as happens when the
caller updates the very object it obtained from the store, which Python
object aliasing keeps identical to the cached one. -/
def UpdateMatchesCache (reg : Registry) (s : EngineState) : Op → Prop
  | .writeExisting c =>
    ∀ c', ((c.containerType, c.identSeq - 1), c') ∈ s.readCache →
      schemaValues reg c.containerType c' =
        schemaValues reg c.containerType c
  | _ => True

/-- States reachable from a fresh store by well-typed operations whose
updates agree with the cache. -/
inductive ReachC1 (reg : Registry) : EngineState → Prop
  | init : ReachC1 reg initialState
  | step (s : EngineState) (op : Op) : ReachC1 reg s →
      OpWellTyped reg op → UpdateMatchesCache reg s op →
      ReachC1 reg (execOp reg s op)

/-- Both invariants hold in every cache-agreeing reachable state. -/
theorem reachC1_inv (reg : Registry) (hreg : RegistryWF reg)
    (s : EngineState) (h : ReachC1 reg s) :
    StInv reg s ∧ CacheInv reg s := by
  induction h with
  | init =>
    constructor
    · refine ⟨?_, ?_, ?_, ?_, ?_⟩
      · intro t _
        rfl
      · intro t
        simp [initialState, alGet, seqD]
      · intro t buf hb
        exact absurd hb (by simp [initialState, alGet])
      · intro t r hr
        exact absurd hr (by simp [initialState, combinedRows,
          bufferRows, alGet])
      · exact List.nodup_nil
    · intro t i c hm
      exact absurd hm (by simp [initialState])
  | step s op hreach hwt hmc ih =>
    obtain ⟨hst, hci⟩ := ih
    cases op with
    | writeNew c => exact inv_writeNew reg s c hreg hst hci hwt
    | writeExisting c =>
      exact inv_writeExisting reg s c hst hci hwt hmc
    | readByIndex t i => exact inv_getByIndex reg s t i hreg hst hci
    | readByIdentifier t n =>
      exact inv_getByIndex reg s t (n - 1) hreg hst hci
    | getNumber t => exact inv_getNumber reg s t hst hci
    | flush => exact inv_flush reg s hst hci

/-! ## Claim C1 -/

/-- C1 (amended): over every well-formed registry, in every store state
reachable by well-typed engine operations whose updates agree with the
cache (`UpdateMatchesCache` — automatic when callers update the object
they obtained from the store, which Python aliasing keeps identical to
the cached one), a read-cache entry for `(t, i)` is served as-is by
`GetAttributeContainerByIndex`, and its schema attribute values equal
those of the container a direct storage read of row `i + 1` (after
committing the type's buffer) would reconstruct.  Without the agreement
restriction the claim fails, see the counterexample: the code never
updates or invalidates a cached entry on
`_WriteExistingAttributeContainer`. -/
theorem read_cache_consistent (reg : Registry) (s : EngineState)
    (hreg : RegistryWF reg) (hs : ReachC1 reg s) (t : String) (i : Int)
    (c : Container) (hc : alGet s.readCache (t, i) = some c) :
    (GetAttributeContainerByIndex reg s t i).1.1 = some c ∧
    ∃ row, rowAt (combinedRows s t) (i + 1) = some row ∧
      schemaValues reg t c =
        schemaValues reg t
          (reconstructContainer t (sortedSchema reg t) row) := by
  obtain ⟨hst, hci⟩ := reachC1_inv reg hreg s hs
  obtain ⟨hsch, hi, row, hrow, hvals⟩ := hci t i c (alGet_mem _ _ _ hc)
  constructor
  · unfold GetAttributeContainerByIndex GetCachedAttributeContainer
    rw [hc]
  · refine ⟨row, ?_, ?_⟩
    · unfold rowAt
      rw [if_pos (by omega : (1 : Int) ≤ i + 1),
        show (i + 1 - 1 : Int) = i from by omega]
      exact hrow
    · rw [hvals]
      have hlenr : row.length = (sortedSchema reg t).length :=
        hst.row_len t row (List.get?_mem hrow)
      exact (schemaValues_reconstruct t (sortedSchema reg t) row
        (sortedSchema_nodup reg t hreg) hlenr).symm

/-- Witness for C1 at a concrete reachable store: one write of an
`"event"` container with `a = 7`; the cached entry at index 0 is served
and matches the storage read of row 1. -/
theorem read_cache_consistent_witness :
    (GetAttributeContainerByIndex c2Registry (c2State 1) "event" 0).1.1 =
      some ⟨"event", "event", 1, [("a", Value.int 7)]⟩ ∧
    ∃ row, rowAt (combinedRows (c2State 1) "event") (0 + 1) = some row ∧
      schemaValues c2Registry "event"
          ⟨"event", "event", 1, [("a", Value.int 7)]⟩ =
        schemaValues c2Registry "event"
          (reconstructContainer "event"
            (sortedSchema c2Registry "event") row) :=
  read_cache_consistent c2Registry (c2State 1)
    (by unfold RegistryWF; decide)
    (ReachC1.step initialState (.writeNew c2Container) ReachC1.init
      (by show ContainerWellTyped c2Registry c2Container
          unfold ContainerWellTyped; decide)
      trivial)
    "event" 0 ⟨"event", "event", 1, [("a", Value.int 7)]⟩ (by decide)

/-- The store after writing a new `"event"` container with `a = 1` and
then updating row 1 through a distinct container object carrying
`a = 2`. -/
def c1UpdateState : EngineState :=
  runOps c2Registry
    [.writeNew ⟨"event", "event", 0, [("a", .int 1)]⟩,
     .writeExisting ⟨"event", "event", 1, [("a", .int 2)]⟩] initialState

/-- C1 counterexample: after a well-typed write of `a = 1` followed by a
well-typed `_WriteExistingAttributeContainer` of `a = 2` for the same row
(sequence number 1), the read cache still holds the stale `a = 1`
container and `GetAttributeContainerByIndex` serves it, while a direct
storage read of row 1 reconstructs `a = 2`: the cached entry is not a
valid substitute for a storage read. -/
theorem read_cache_consistent_counterexample :
    ContainerWellTyped c2Registry
      ⟨"event", "event", 0, [("a", Value.int 1)]⟩ ∧
    ContainerWellTyped c2Registry
      ⟨"event", "event", 1, [("a", Value.int 2)]⟩ ∧
    alGet c1UpdateState.readCache ("event", 0) =
      some ⟨"event", "event", 1, [("a", Value.int 1)]⟩ ∧
    (GetAttributeContainerByIndex c2Registry c1UpdateState "event"
      0).1.1 = some ⟨"event", "event", 1, [("a", Value.int 1)]⟩ ∧
    rowAt (combinedRows c1UpdateState "event") (0 + 1) =
      some [Value.int 2] ∧
    schemaValues c2Registry "event"
        ⟨"event", "event", 1, [("a", Value.int 1)]⟩ ≠
      schemaValues c2Registry "event"
        (reconstructContainer "event" (sortedSchema c2Registry "event")
          [Value.int 2]) := by
  refine ⟨?_, ?_, ?_, ?_, ?_, ?_⟩
  · unfold ContainerWellTyped; decide
  · unfold ContainerWellTyped; decide
  · decide
  · decide
  · decide
  · decide

/-! ## Claim C6: the count never decreases

Table row counts are monotone under every engine operation: rows are only
ever appended (buffer flushes) or updated in place (`UPDATE` preserves the
row count), and acstore issues no `DELETE`. -/

/-- A single-buffer flush never shrinks any table and keeps tables
existing. -/
theorem table_mono_flushWC (s : EngineState) (t : String) (buf : WriteBuf)
    (u : String) :
    tableRowCount s u ≤ tableRowCount (FlushWriteCache s t buf).1 u ∧
    ((alGet s.tables u).isSome = true →
      (alGet (FlushWriteCache s t buf).1.tables u).isSome = true) := by
  unfold FlushWriteCache
  match htab : alGet s.tables t with
  | some rows =>
    dsimp only
    by_cases hu : u = t
    · subst hu
      unfold tableRowCount
      rw [alGet_alSet_self, htab]
      simp
    · unfold tableRowCount
      rw [alGet_alSet_ne _ _ _ _ hu]
      exact ⟨le_refl _, fun h => h⟩
  | Option.none => exact ⟨le_refl _, fun h => h⟩

/-- Committing a buffer never shrinks any table. -/
theorem table_mono_commit (s : EngineState) (t u : String) :
    tableRowCount s u ≤ tableRowCount (CommitWriteCache s t).1 u ∧
    ((alGet s.tables u).isSome = true →
      (alGet (CommitWriteCache s t).1.tables u).isSome = true) := by
  unfold CommitWriteCache
  match hbuf : alGet s.writeCache t with
  | Option.none => exact ⟨le_refl _, fun h => h⟩
  | some buf =>
    dsimp only
    by_cases hrows : 0 < buf.rows.length
    · rw [if_pos hrows]
      obtain ⟨h1, h2⟩ := table_mono_flushWC s t buf u
      match hf : FlushWriteCache s t buf with
      | (s1, some e) =>
        rw [hf] at h1 h2
        exact ⟨h1, h2⟩
      | (s1, Option.none) =>
        rw [hf] at h1 h2
        exact ⟨h1, h2⟩
    · rw [if_neg hrows]
      exact ⟨le_refl _, fun h => h⟩

/-- When committing raises, the type's table did not exist. -/
theorem commit_err_no_table (s : EngineState) (t : String)
    (h : (CommitWriteCache s t).2.isSome = true) :
    alGet s.tables t = Option.none := by
  by_cases htab : alGet s.tables t = Option.none
  · exact htab
  · exfalso
    obtain ⟨rows, hrows⟩ := Option.ne_none_iff_exists'.mp htab
    unfold CommitWriteCache FlushWriteCache at h
    match hbuf : alGet s.writeCache t with
    | Option.none => simp only [hbuf] at h; simp at h
    | some buf =>
      by_cases hr : 0 < buf.rows.length
      · simp only [hbuf, if_pos hr, hrows] at h
        simp at h
      · simp only [hbuf, if_neg hr] at h
        simp at h

/-- Buffering a row for writing never shrinks any table. -/
theorem table_mono_cfw (s : EngineState) (t : String)
    (cols : List String) (row : List Value) (u : String) :
    tableRowCount s u ≤
      tableRowCount (CacheAttributeContainerForWrite s t cols row).1 u ∧
    ((alGet s.tables u).isSome = true →
      (alGet (CacheAttributeContainerForWrite s t cols
        row).1.tables u).isSome = true) := by
  unfold CacheAttributeContainerForWrite
  by_cases hth : MAXIMUM_WRITE_CACHE_SIZE ≤
      (((alGet s.writeCache t).getD ⟨cols, []⟩).rows ++ [row]).length + 1
  · rw [if_pos hth]
    obtain ⟨h1, h2⟩ := table_mono_flushWC s t
      { (alGet s.writeCache t).getD ⟨cols, []⟩ with
        rows := ((alGet s.writeCache t).getD ⟨cols, []⟩).rows ++ [row] } u
    match hf : FlushWriteCache s t
        { (alGet s.writeCache t).getD ⟨cols, []⟩ with
          rows := ((alGet s.writeCache t).getD ⟨cols, []⟩).rows
            ++ [row] } with
    | (s1, some e) =>
      rw [hf] at h1 h2
      exact ⟨h1, h2⟩
    | (s1, Option.none) =>
      rw [hf] at h1 h2
      exact ⟨h1, h2⟩
  · rw [if_neg hth]
    exact ⟨le_refl _, fun h => h⟩

/-- The full-flush loop never shrinks any table. -/
theorem table_mono_flushAllGo (entries : List (String × WriteBuf)) :
    ∀ (acc : EngineState) (u : String),
    tableRowCount acc u ≤ tableRowCount (FlushAllGo entries acc).1 u ∧
    ((alGet acc.tables u).isSome = true →
      (alGet (FlushAllGo entries acc).1.tables u).isSome = true) := by
  induction entries with
  | nil => exact fun acc u => ⟨le_refl _, fun h => h⟩
  | cons p rest ih =>
    intro acc u
    obtain ⟨t, buf⟩ := p
    unfold FlushAllGo
    by_cases hrows : 0 < buf.rows.length
    · rw [if_pos hrows]
      obtain ⟨h1, h2⟩ := table_mono_flushWC acc t buf u
      match hf : FlushWriteCache acc t buf with
      | (s1, some e) =>
        rw [hf] at h1 h2
        exact ⟨h1, h2⟩
      | (s1, Option.none) =>
        rw [hf] at h1 h2
        obtain ⟨h3, h4⟩ := ih s1 u
        exact ⟨le_trans h1 h3, fun h => h4 (h2 h)⟩
    · rw [if_neg hrows]
      exact ih acc u

/-- A read by index never shrinks any table. -/
theorem table_mono_getByIndex (reg : Registry) (s : EngineState)
    (t : String) (i : Int) (u : String) :
    tableRowCount s u ≤
      tableRowCount (GetAttributeContainerByIndex reg s t i).1.2 u ∧
    ((alGet s.tables u).isSome = true →
      (alGet ((GetAttributeContainerByIndex reg s t
        i).1.2).tables u).isSome = true) := by
  unfold GetAttributeContainerByIndex GetCachedAttributeContainer
  match halg : alGet s.readCache (t, i) with
  | some c0 => exact ⟨le_refl _, fun h => h⟩
  | Option.none =>
    dsimp only
    obtain ⟨h1, h2⟩ := table_mono_commit s t u
    match hc : CommitWriteCache s t with
    | (s1, some e) =>
      rw [hc] at h1 h2
      exact ⟨h1, h2⟩
    | (s1, Option.none) =>
      rw [hc] at h1 h2
      dsimp only
      by_cases hseq0 : (alGet s1.seqNumbers t).getD 0 = 0
      · rw [if_pos hseq0]
        exact ⟨h1, h2⟩
      · rw [if_neg hseq0]
        by_cases hsch : schemaOf reg t = []
        · rw [if_pos hsch]
          exact ⟨h1, h2⟩
        · rw [if_neg hsch]
          match htab : alGet s1.tables t with
          | Option.none => exact ⟨h1, h2⟩
          | some rows =>
            dsimp only
            match hrow : rowAt rows (i + 1) with
            | Option.none => exact ⟨h1, h2⟩
            | some row => exact ⟨h1, h2⟩

/-- Creating a fresh empty table never shrinks any table. -/
theorem alSet_empty_mono {tabs : List (String × List (List Value))}
    (t u : String) (htabs : alGet tabs t = Option.none) :
    ((alGet tabs u).getD []).length ≤
      ((alGet (alSet tabs t []) u).getD []).length ∧
    ((alGet tabs u).isSome = true →
      (alGet (alSet tabs t []) u).isSome = true) := by
  by_cases hu : u = t
  · rw [hu, htabs, alGet_alSet_self]
    constructor
    · simp
    · intro h
      simp at h
  · rw [alGet_alSet_ne _ _ _ _ hu]
    exact ⟨le_refl _, fun h => h⟩

/-- No single engine operation shrinks any table. -/
theorem table_mono_step (reg : Registry) (s : EngineState) (op : Op)
    (u : String) :
    tableRowCount s u ≤ tableRowCount (execOp reg s op) u ∧
    ((alGet s.tables u).isSome = true →
      (alGet (execOp reg s op).tables u).isSome = true) := by
  cases op with
  | writeNew c =>
    show tableRowCount s u ≤
      tableRowCount (WriteNewAttributeContainer reg s c).1 u ∧
      ((alGet s.tables u).isSome = true →
        (alGet (WriteNewAttributeContainer reg s c).1.tables u).isSome
          = true)
    unfold WriteNewAttributeContainer
    dsimp only
    by_cases hcond : ((GetAttributeContainerNextSequenceNumber s
        c.containerType).1 = 1 ∧
      ¬ HasTable (GetAttributeContainerNextSequenceNumber s
        c.containerType).2 c.containerType = true)
    · rw [if_pos hcond]
      have htabs : alGet s.tables c.containerType = Option.none := by
        have h2 := hcond.2
        unfold HasTable at h2
        exact Option.not_isSome_iff_eq_none.mp h2
      match hcr : CreateAttributeContainerTable reg
          (GetAttributeContainerNextSequenceNumber s
            c.containerType).2 c.containerType with
      | (s1, some e) =>
        dsimp only
        have hs1 : s1.tables = s.tables := by
          unfold CreateAttributeContainerTable at hcr
          by_cases hsch : schemaOf reg c.containerType = []
          · rw [if_pos hsch] at hcr
            injection hcr with h1 h2
            rw [← h1]
            rfl
          · rw [if_neg hsch] at hcr
            injection hcr with h1 h2
            exact Option.noConfusion h2
        constructor
        · unfold tableRowCount
          rw [hs1]
        · intro h
          show (alGet s1.tables u).isSome = true
          rw [hs1]
          exact h
      | (s1, Option.none) =>
        dsimp only
        have hs1 : s1.tables = alSet s.tables c.containerType [] := by
          unfold CreateAttributeContainerTable at hcr
          by_cases hsch : schemaOf reg c.containerType = []
          · rw [if_pos hsch] at hcr
            injection hcr with h1 h2
            exact Option.noConfusion h2
          · rw [if_neg hsch] at hcr
            injection hcr with h1 h2
            rw [← h1]
            rfl
        have hmono1 : ((alGet s.tables u).getD []).length ≤
            ((alGet s1.tables u).getD []).length ∧
            ((alGet s.tables u).isSome = true →
              (alGet s1.tables u).isSome = true) := by
          rw [hs1]
          exact alSet_empty_mono c.containerType u htabs
        by_cases hsch : schemaOf reg c.containerType = []
        · rw [if_pos hsch]
          exact hmono1
        · rw [if_neg hsch]
          match hser : serializeRow (sortedSchema reg c.containerType)
              { containerType := c.containerType,
                identName := c.containerType,
                identSeq := ((GetAttributeContainerNextSequenceNumber s
                  c.containerType).1 : Int),
                attrs := c.attrs } with
          | .error e2 => exact hmono1
          | .ok row =>
            dsimp only
            obtain ⟨h1, h2⟩ := table_mono_cfw s1 c.containerType
              ((sortedSchema reg c.containerType).map Prod.fst) row u
            match hcf : CacheAttributeContainerForWrite s1
                c.containerType
                ((sortedSchema reg c.containerType).map Prod.fst)
                row with
            | (s2, some e2) =>
              rw [hcf] at h1 h2
              exact ⟨le_trans hmono1.1 h1, fun h => h2 (hmono1.2 h)⟩
            | (s2, Option.none) =>
              rw [hcf] at h1 h2
              exact ⟨le_trans hmono1.1 h1, fun h => h2 (hmono1.2 h)⟩
    · rw [if_neg hcond]
      dsimp only
      by_cases hsch : schemaOf reg c.containerType = []
      · rw [if_pos hsch]
        exact ⟨le_refl _, fun h => h⟩
      · rw [if_neg hsch]
        match hser : serializeRow (sortedSchema reg c.containerType)
            { containerType := c.containerType,
              identName := c.containerType,
              identSeq := ((GetAttributeContainerNextSequenceNumber s
                c.containerType).1 : Int),
              attrs := c.attrs } with
        | .error e2 => exact ⟨le_refl _, fun h => h⟩
        | .ok row =>
          dsimp only
          obtain ⟨h1, h2⟩ := table_mono_cfw
            (GetAttributeContainerNextSequenceNumber s
              c.containerType).2 c.containerType
            ((sortedSchema reg c.containerType).map Prod.fst) row u
          match hcf : CacheAttributeContainerForWrite
              (GetAttributeContainerNextSequenceNumber s
                c.containerType).2 c.containerType
              ((sortedSchema reg c.containerType).map Prod.fst)
              row with
          | (s2, some e2) =>
            rw [hcf] at h1 h2
            exact ⟨h1, h2⟩
          | (s2, Option.none) =>
            rw [hcf] at h1 h2
            exact ⟨h1, h2⟩
  | writeExisting c =>
    show tableRowCount s u ≤
      tableRowCount (WriteExistingAttributeContainer reg s c).1 u ∧
      ((alGet s.tables u).isSome = true →
        (alGet (WriteExistingAttributeContainer reg s
          c).1.tables u).isSome = true)
    unfold WriteExistingAttributeContainer
    obtain ⟨h1, h2⟩ := table_mono_commit s c.containerType u
    match hc : CommitWriteCache s c.containerType with
    | (s1, some e) =>
      rw [hc] at h1 h2
      exact ⟨h1, h2⟩
    | (s1, Option.none) =>
      rw [hc] at h1 h2
      dsimp only
      by_cases hsch : schemaOf reg c.containerType = []
      · rw [if_pos hsch]
        exact ⟨h1, h2⟩
      · rw [if_neg hsch]
        match hser : serializeRow (sortedSchema reg c.containerType)
            c with
        | .error e => exact ⟨h1, h2⟩
        | .ok row =>
          dsimp only
          match htab : alGet s1.tables c.containerType with
          | Option.none => exact ⟨h1, h2⟩
          | some rows =>
            dsimp only
            by_cases hrange : 1 ≤ c.identSeq ∧
                c.identSeq ≤ (rows.length : Int)
            · rw [if_pos hrange]
              constructor
              · refine le_trans h1 ?_
                by_cases hu : u = c.containerType
                · unfold tableRowCount
                  rw [hu]
                  show _ ≤ ((alGet (alSet s1.tables c.containerType
                    (rows.set (c.identSeq - 1).toNat row))
                      c.containerType).getD []).length
                  rw [alGet_alSet_self]
                  show ((alGet s1.tables c.containerType).getD
                    []).length ≤ _
                  rw [htab]
                  simp
                · unfold tableRowCount
                  show _ ≤ ((alGet (alSet s1.tables c.containerType
                    (rows.set (c.identSeq - 1).toNat row)) u).getD
                      []).length
                  rw [alGet_alSet_ne _ _ _ _ hu]
              · intro h
                by_cases hu : u = c.containerType
                · show (alGet (alSet s1.tables c.containerType
                    (rows.set (c.identSeq - 1).toNat row)) u).isSome
                      = true
                  rw [hu, alGet_alSet_self]
                  rfl
                · show (alGet (alSet s1.tables c.containerType
                    (rows.set (c.identSeq - 1).toNat row)) u).isSome
                      = true
                  rw [alGet_alSet_ne _ _ _ _ hu]
                  exact h2 h
            · rw [if_neg hrange]
              exact ⟨h1, h2⟩
  | readByIndex t i =>
    exact table_mono_getByIndex reg s t i u
  | readByIdentifier t n =>
    show tableRowCount s u ≤ tableRowCount
      (GetAttributeContainerByIndex reg s t (n - 1)).1.2 u ∧
      ((alGet s.tables u).isSome = true →
        (alGet ((GetAttributeContainerByIndex reg s t
          (n - 1)).1.2).tables u).isSome = true)
    exact table_mono_getByIndex reg s t (n - 1) u
  | getNumber t =>
    show tableRowCount s u ≤
      tableRowCount (GetNumberOfAttributeContainers s t).1.2 u ∧
      ((alGet s.tables u).isSome = true →
        (alGet ((GetNumberOfAttributeContainers s
          t).1.2).tables u).isSome = true)
    rw [getNumber_state_eq]
    exact table_mono_commit s t u
  | flush =>
    show tableRowCount s u ≤ tableRowCount (Flush s).1 u ∧
      ((alGet s.tables u).isSome = true →
        (alGet (Flush s).1.tables u).isSome = true)
    exact table_mono_flushAllGo s.writeCache s u

/-- When committing raises, the store state is left unchanged. -/
theorem commit_err_state (s : EngineState) (t : String)
    (h : (CommitWriteCache s t).2.isSome = true) :
    (CommitWriteCache s t).1 = s := by
  unfold CommitWriteCache FlushWriteCache at h ⊢
  match hbuf : alGet s.writeCache t with
  | Option.none => simp only [hbuf] at h; simp at h
  | some buf =>
    by_cases hr : 0 < buf.rows.length
    · simp only [hbuf, if_pos hr]
      match htab : alGet s.tables t with
      | some rows =>
        simp only [hbuf, if_pos hr, htab] at h
        simp at h
      | Option.none => rfl
    · simp only [hbuf, if_neg hr] at h
      simp at h

/-- The count a `getNumber` call reports is at least the number of rows
already flushed into the type's table. -/
theorem count_result_A (s : EngineState) (t : String) :
    tableRowCount s t ≤ (GetNumberOfAttributeContainers s t).1.1 := by
  unfold GetNumberOfAttributeContainers
  match hc : CommitWriteCache s t with
  | (s1, some e) =>
    dsimp only
    have htab := commit_err_no_table s t (by rw [hc]; rfl)
    unfold tableRowCount
    rw [htab]
    exact le_refl 0
  | (s1, Option.none) =>
    dsimp only
    obtain ⟨h1, h2⟩ := table_mono_commit s t t
    rw [hc] at h1
    match htab : alGet s1.tables t with
    | Option.none =>
      dsimp only
      refine le_trans h1 ?_
      show tableRowCount s1 t ≤ 0
      unfold tableRowCount
      rw [htab]
      exact le_refl 0
    | some rows =>
      dsimp only
      refine le_trans h1 ?_
      show tableRowCount s1 t ≤ rows.length
      unfold tableRowCount
      rw [htab]
      exact le_refl _

/-- The count a `getNumber` call reports is at most the number of rows in
the type's table in the state the call leaves behind. -/
theorem count_result_B (s : EngineState) (t : String) :
    (GetNumberOfAttributeContainers s t).1.1 ≤
      tableRowCount (GetNumberOfAttributeContainers s t).1.2 t := by
  unfold GetNumberOfAttributeContainers
  match hc : CommitWriteCache s t with
  | (s1, some e) => exact Nat.zero_le _
  | (s1, Option.none) =>
    dsimp only
    match htab : alGet s1.tables t with
    | Option.none => exact Nat.zero_le _
    | some rows =>
      dsimp only
      show rows.length ≤ tableRowCount s1 t
      unfold tableRowCount
      rw [htab]
      exact le_refl _

/-- No sequence of engine operations shrinks any table. -/
theorem table_mono_runOps (reg : Registry) (ops : List Op) :
    ∀ (s : EngineState) (u : String),
    tableRowCount s u ≤ tableRowCount (runOps reg ops s) u := by
  induction ops with
  | nil => exact fun s u => le_refl _
  | cons op rest ih =>
    intro s u
    show tableRowCount s u ≤
      tableRowCount (runOps reg rest (execOp reg s op)) u
    exact le_trans (table_mono_step reg s op u).1
      (ih (execOp reg s op) u)

/-- C6: the engine offers no delete, so the count that
`GetNumberOfAttributeContainers` reports for a container type never
decreases between two successive calls, whatever engine operations
(writes of new or existing containers, reads, flushes) run in between;
moreover a call first force-commits the type's write buffer, reports 0
when no table exists for the type after that commit, and otherwise
reports the number of rows of the table — the maximum row identity, row
identities being assigned consecutively from 1 and never reused. -/
theorem count_never_decreases (reg : Registry) (s : EngineState)
    (t : String) (ops : List Op) :
    (GetNumberOfAttributeContainers s t).1.1 ≤
      (GetNumberOfAttributeContainers
        (runOps reg ops (GetNumberOfAttributeContainers s t).1.2) t).1.1 ∧
    (GetNumberOfAttributeContainers s t).1.2 = (CommitWriteCache s t).1 ∧
    (alGet (CommitWriteCache s t).1.tables t = Option.none →
      (GetNumberOfAttributeContainers s t).1.1 = 0) ∧
    (∀ rows, alGet (CommitWriteCache s t).1.tables t = some rows →
      (GetNumberOfAttributeContainers s t).1.1 = rows.length) := by
  refine ⟨?_, getNumber_state_eq s t, ?_, ?_⟩
  · exact le_trans (count_result_B s t)
      (le_trans (table_mono_runOps reg ops
        (GetNumberOfAttributeContainers s t).1.2 t)
        (count_result_A (runOps reg ops
          (GetNumberOfAttributeContainers s t).1.2) t))
  · intro htab
    unfold GetNumberOfAttributeContainers
    match hc : CommitWriteCache s t with
    | (s1, some e) => rfl
    | (s1, Option.none) =>
      dsimp only
      have htab2 : alGet s1.tables t = Option.none := by
        rw [hc] at htab
        exact htab
      simp only [htab2]
  · intro rows htab
    unfold GetNumberOfAttributeContainers
    match hc : CommitWriteCache s t with
    | (s1, some e) =>
      exfalso
      have herr : (CommitWriteCache s t).2.isSome = true := by
        rw [hc]
        rfl
      have hnone := commit_err_no_table s t herr
      have hstate := commit_err_state s t herr
      rw [hc] at htab hstate
      have hs1 : s1 = s := hstate
      rw [hs1] at htab
      have htab2 : alGet s.tables t = some rows := htab
      rw [hnone] at htab2
      exact Option.noConfusion htab2
    | (s1, Option.none) =>
      dsimp only
      have htab2 : alGet s1.tables t = some rows := by
        rw [hc] at htab
        exact htab
      simp only [htab2]

end ACStore
